import Mathlib

/-
Verification development for the title classification and metadata-caching
engine of switch-library-manager (src/db/localSwitchFilesDB.go).

The Go code is shallowly embedded as pure Lean functions:

* Go maps become association lists (`alLookup` / `alInsert`); Go map
  assignment is overwrite-insert, and a read of a missing key yields the
  zero value (modelled with explicit `zero...` defaults where the source
  relies on it).
* Go `int` becomes `Int` (overflow of `strconv.Atoi` beyond the int range
  is not modelled; all inputs used in the development are far below it).
* `regexp` patterns `\[[vV]?(?P<version>[0-9]{1,10})]` and
  `\[(?P<titleId>[A-Z,a-z0-9]{16})]` become leftmost-scanning matchers
  (`findVer`, `findTok`); for both patterns, Go's leftmost-first matching
  coincides with the scan performed here because after a fixed `[` the
  token body is determined by a maximal digit / fixed-width class run.
* The boltdb bucket "deep-scan" becomes an `Option CacheBucket`; the
  external structural parsers (switchfs.ReadNspMetadata,
  switchfs.ReadXciMetadata, fileio.ReadSplitFileMetadata) and the key
  availability probe become fields of a `ResolveEnv` record.
* `filepath.Join` path cleaning is not modelled (plain separator concat);
  nothing below depends on path normalisation.
* Strings are treated as their character lists; the source manipulates
  ASCII file names and title ids, where Go byte slicing and Lean character
  operations agree.
* Iteration over a Go map (`for _, metadata := range contentMap`) has an
  unspecified order; the embedding fixes a list order, and theorems
  quantifying over all lists therefore cover every order the Go runtime
  can produce.
-/

namespace SLM

/-! ## Small string helpers (Go standard library fragments) -/

/-- ASCII lower-casing of one character, as `strings.ToLower` does on the
ASCII subset that file names and title ids use. -/
def charLower (c : Char) : Char :=
  if 'A' ≤ c ∧ c ≤ 'Z' then Char.ofNat (c.toNat + 32) else c

/-- Embedding of `strings.ToLower` (ASCII subset). -/
def strLower (s : String) : String := ⟨s.data.map charLower⟩

/-- Does `pat` occur at the head of `l`? -/
def listStarts : List Char → List Char → Bool
  | [], _ => true
  | _ :: _, [] => false
  | p :: ps, c :: cs => if p = c then listStarts ps cs else false

/-- Embedding of `strings.HasSuffix` (and of Go's `HasSuffix`-style checks
on lower-cased file names). -/
def goHasSuffix (s suffix : String) : Bool :=
  listStarts suffix.data.reverse s.data.reverse

/-- The last two characters of a name, as `fileName[len(fileName)-2:]`
slices them.  (For a name of length < 2 the Go code would panic; the
embedding totalises by returning the whole name, and no claim exercises
that case.) -/
def takeLast2 (l : List Char) : List Char := l.drop (l.length - 2)

/-- Decimal digit test, the `[0-9]` character class. -/
def isDigitCh (c : Char) : Bool := decide ('0' ≤ c ∧ c ≤ '9')

/-- Value of a digit string. -/
def digitsVal (l : List Char) : Nat :=
  l.foldl (fun a c => 10 * a + (c.toNat - 48)) 0

/-- Embedding of `strconv.Atoi`: optional sign followed by at least one
digit (overflow not modelled). -/
def goAtoi (s : String) : Option Int :=
  match s.data with
  | [] => none
  | c :: rest =>
    if c = '+' then
      if rest ≠ [] ∧ rest.all isDigitCh then some (digitsVal rest : Int) else none
    else if c = '-' then
      if rest ≠ [] ∧ rest.all isDigitCh then some (-(digitsVal rest : Int)) else none
    else if (c :: rest).all isDigitCh then some (digitsVal (c :: rest) : Int) else none

/-! ## Association lists (Go maps) -/

/-- Lookup in a Go map modelled as an association list. -/
def alLookup {α β : Type} [DecidableEq α] (k : α) : List (α × β) → Option β
  | [] => none
  | (k', v) :: rest => if k' = k then some v else alLookup k rest

/-- Assignment `m[k] = v` in a Go map: overwrite if present, add if not. -/
def alInsert {α β : Type} [DecidableEq α] (k : α) (v : β) : List (α × β) → List (α × β)
  | [] => [(k, v)]
  | (k', v') :: rest => if k' = k then (k, v) :: rest else (k', v') :: alInsert k v rest

theorem alLookup_alInsert {α β : Type} [DecidableEq α] (k k' : α) (v : β) (l : List (α × β)) :
    alLookup k (alInsert k' v l) = if k' = k then some v else alLookup k l := by
  induction l with
  | nil => simp [alInsert, alLookup]
  | cons p rest ih =>
    obtain ⟨a, b⟩ := p
    by_cases hak : a = k' <;> by_cases hkk : k' = k <;> simp_all [alInsert, alLookup]

theorem alLookup_alInsert_self {α β : Type} [DecidableEq α] (k : α) (v : β) (l : List (α × β)) :
    alLookup k (alInsert k v l) = some v := by
  simp [alLookup_alInsert]

theorem alLookup_alInsert_ne {α β : Type} [DecidableEq α] (k k' : α) (v : β) (l : List (α × β))
    (h : k' ≠ k) : alLookup k (alInsert k' v l) = alLookup k l := by
  simp [alLookup_alInsert, h]

/-! ## Filename fallback parsing

The source compiles two package-level patterns:

  versionRegex = `\[[vV]?(?P<version>[0-9]{1,10})]`
  titleIdRegex = `\[(?P<titleId>[A-Z,a-z0-9]{16})]`

`findTok` / `findVer` scan positions left to right, which realises Go's
leftmost matching for these patterns. -/

/-- The character class `[A-Z,a-z0-9]` of `titleIdRegex`.  Note it contains
a literal comma between the `A-Z` and `a-z` ranges. -/
def isTitleIdChar (c : Char) : Bool :=
  decide (('A' ≤ c ∧ c ≤ 'Z') ∨ c = ',' ∨ ('a' ≤ c ∧ c ≤ 'z') ∨ ('0' ≤ c ∧ c ≤ '9'))

/-- Try to match `\[<class>{n}]` at the head of the character list. -/
def tokHere (p : Char → Bool) (n : Nat) : List Char → Option (List Char)
  | [] => none
  | c :: rest =>
    if c = '[' ∧ (rest.take n).length = n ∧ (rest.take n).all p = true ∧
        rest[n]? = some ']' then
      some (rest.take n)
    else none

/-- Leftmost match of `\[<class>{n}]` in the character list. -/
def findTok (p : Char → Bool) (n : Nat) : List Char → Option (List Char)
  | [] => none
  | c :: rest =>
    match tokHere p n (c :: rest) with
    | some t => some t
    | none => findTok p n rest

/-- The digit run the version pattern reads after the optional `v`/`V`:
for these patterns greedy matching with backtracking coincides with
taking the maximal digit run. -/
def verBody : List Char → List Char
  | [] => []
  | c :: rest => if c = 'v' ∨ c = 'V' then rest else c :: rest

/-- Try to match `\[[vV]?[0-9]{1,10}]` at the head of the character list,
returning the digit group. -/
def verHere : List Char → Option (List Char)
  | [] => none
  | c :: rest =>
    if c = '[' ∧ 1 ≤ ((verBody rest).takeWhile isDigitCh).length ∧
        ((verBody rest).takeWhile isDigitCh).length ≤ 10 ∧
        (verBody rest)[((verBody rest).takeWhile isDigitCh).length]? = some ']' then
      some ((verBody rest).takeWhile isDigitCh)
    else none

/-- Leftmost match of `versionRegex` in the character list. -/
def findVer : List Char → Option (List Char)
  | [] => none
  | c :: rest =>
    match verHere (c :: rest) with
    | some d => some d
    | none => findVer rest

/-- Embedding of `parseVersionFromFileName`: the digit group of the leftmost
`versionRegex` match, converted by `strconv.Atoi` (always in range for 1-10
digits).  `none` is the "failed to parse name - no version id found" error. -/
def parseVersionFromFileName (fileName : String) : Option Int :=
  (findVer fileName.data).map (fun d => (digitsVal d : Int))

/-- Embedding of `parseTitleIdFromFileName`: the group of the leftmost
`titleIdRegex` match, lower-cased.  `none` is the "failed to parse name -
no title id found" error. -/
def parseTitleIdFromFileName (fileName : String) : Option String :=
  (findTok isTitleIdChar 16 fileName.data).map (fun t => strLower ⟨t⟩)

/-! ## Data model -/

/-- Skip reason codes, in the order of the source's `const` block. -/
def REASON_UNSUPPORTED_TYPE : Nat := 0

def REASON_DUPLICATE : Nat := 1

def REASON_OLD_UPDATE : Nat := 2

def REASON_UNRECOGNISED : Nat := 3

def REASON_MALFORMED_FILE : Nat := 4

/-- `ExtendedFileInfo`: the os.FileInfo data the code reads (name, size,
directory flag) plus the base folder.  Equality of this record is the Go
map-key equality of `ExtendedFileInfo`. -/
structure FileMeta where
  name : String
  baseFolder : String
  size : Int
  isDir : Bool
deriving DecidableEq

/-- The fields of `switchfs.ContentMetaAttributes` that the code uses.
`ctype` stands for the Go field `Type` (a Lean keyword). -/
structure ContentMetaAttributes where
  TitleId : String
  Version : Int
  ctype : String
deriving DecidableEq

structure SwitchFileInfo where
  ExtendedInfo : FileMeta
  Metadata : ContentMetaAttributes
deriving DecidableEq

/-- Go zero values, used where the source reads a missing map entry or an
unset struct field. -/
def zeroFileMeta : FileMeta := ⟨"", "", 0, false⟩

def zeroMeta : ContentMetaAttributes := ⟨"", 0, ""⟩

def zeroSwitchFileInfo : SwitchFileInfo := ⟨zeroFileMeta, zeroMeta⟩

/-- `SwitchGameFiles`, one record per 12-character title-id prefix. -/
structure SwitchGameFiles where
  File : SwitchFileInfo
  BaseExist : Bool
  Updates : List (Int × SwitchFileInfo)
  Dlc : List (String × SwitchFileInfo)
  MultiContent : Bool
  LatestUpdate : Int
  IsSplit : Bool
deriving DecidableEq

structure SkippedFile where
  ReasonCode : Nat
  ReasonText : String
deriving DecidableEq

/-- The two accumulator maps of `processLocalFiles`. -/
structure ClassifyState where
  titles : List (String × SwitchGameFiles)
  skipped : List (FileMeta × SkippedFile)
deriving DecidableEq

/-- The record literal built at the top of the per-content loop. -/
def freshTitle (multiContent isSplit : Bool) : SwitchGameFiles :=
  { File := zeroSwitchFileInfo
    BaseExist := false
    Updates := []
    Dlc := []
    MultiContent := multiContent
    LatestUpdate := 0
    IsSplit := isSplit }

/-- `metadata.TitleId[0 : len(metadata.TitleId)-4]`.  (Go panics when the
id is shorter than 4 bytes; the embedding totalises via `dropRight`.) -/
def idPfx (titleId : String) : String := titleId.dropRight 4

/-- One iteration of the `for _, metadata := range contentMap` loop of
`processLocalFiles` (source lines 218-285): classify one content entry of
one file into the titles map, recording skips. -/
def processContent (file : FileMeta) (multiContent isSplit : Bool)
    (metadata : ContentMetaAttributes) (st : ClassifyState) : ClassifyState :=
  let p := idPfx metadata.TitleId
  let switchTitle := (alLookup p st.titles).getD (freshTitle multiContent isSplit)
  if goHasSuffix metadata.TitleId "800" then
    -- process Updates
    let md := { metadata with ctype := "Update" }
    match alLookup md.Version switchTitle.Updates with
    | some update =>
      { titles := alInsert p switchTitle st.titles
        skipped := alInsert file
          ⟨REASON_DUPLICATE, "duplicate update file (" ++ update.ExtendedInfo.name ++ ")"⟩
          st.skipped }
    | none =>
      let t1 := { switchTitle with Updates := alInsert md.Version ⟨file, md⟩ switchTitle.Updates }
      if md.Version > switchTitle.LatestUpdate then
        let sk :=
          if switchTitle.LatestUpdate ≠ 0 then
            alInsert ((alLookup switchTitle.LatestUpdate t1.Updates).getD
                zeroSwitchFileInfo).ExtendedInfo
              ⟨REASON_OLD_UPDATE, "old update file, newer update exist locally"⟩ st.skipped
          else st.skipped
        { titles := alInsert p { t1 with LatestUpdate := md.Version } st.titles
          skipped := sk }
      else
        { titles := alInsert p t1 st.titles
          skipped := alInsert file
            ⟨REASON_OLD_UPDATE, "old update file, newer update exist locally"⟩ st.skipped }
  else if goHasSuffix metadata.TitleId "000" then
    -- process base
    let md := { metadata with ctype := "Base" }
    if switchTitle.BaseExist then
      { titles := alInsert p switchTitle st.titles
        skipped := alInsert file
          ⟨REASON_DUPLICATE,
            "duplicate base file (" ++ switchTitle.File.ExtendedInfo.name ++ ")"⟩
          st.skipped }
    else
      { titles := alInsert p { switchTitle with File := ⟨file, md⟩, BaseExist := true } st.titles
        skipped := st.skipped }
  else
    -- not an update and not the main title: treat it as a DLC
    match alLookup metadata.TitleId switchTitle.Dlc with
    | some dlc =>
      if metadata.Version < dlc.Metadata.Version then
        { titles := alInsert p switchTitle st.titles
          skipped := alInsert file
            ⟨REASON_OLD_UPDATE, "old DLC file, newer version exist locally"⟩ st.skipped }
      else if metadata.Version = dlc.Metadata.Version then
        { titles := alInsert p switchTitle st.titles
          skipped := alInsert file
            ⟨REASON_DUPLICATE, "duplicate DLC file (" ++ dlc.ExtendedInfo.name ++ ")"⟩
            st.skipped }
      else
        { titles := alInsert p
            { switchTitle with
              Dlc := alInsert metadata.TitleId ⟨file, { metadata with ctype := "DLC" }⟩
                switchTitle.Dlc } st.titles
          skipped := st.skipped }
    | none =>
      { titles := alInsert p
          { switchTitle with
            Dlc := alInsert metadata.TitleId ⟨file, { metadata with ctype := "DLC" }⟩
              switchTitle.Dlc } st.titles
        skipped := st.skipped }

/-- The full inner loop of `processLocalFiles` over one file's content map. -/
def classifyFile (file : FileMeta) (isSplit : Bool)
    (contentMap : List ContentMetaAttributes) (st : ClassifyState) : ClassifyState :=
  contentMap.foldl
    (fun s md => processContent file (decide (1 < contentMap.length)) isSplit md s) st

/-! ## Metadata cache and resolver -/

/-- The "deep-scan" bolt bucket: the `app_version` marker key plus one
serialized content map per file fingerprint.  `Option CacheBucket` is
`none` when the bucket does not exist. -/
structure CacheBucket where
  appVersion : Option String
  entries : List (String × List ContentMetaAttributes)
deriving DecidableEq

/-- `b.Get([]byte(fileKey))` through a `View` transaction: a missing bucket
or a missing key is a miss. -/
def cacheGet (cache : Option CacheBucket) (k : String) : Option (List ContentMetaAttributes) :=
  match cache with
  | none => none
  | some b => alLookup k b.entries

/-- The `db.Update` write-through block of `getGameMetadata`: create the
bucket and stamp `app_version` with the running version if the bucket is
missing, then put the entry. -/
def cachePut (slmVersion : String) (k : String) (m : List ContentMetaAttributes) :
    Option CacheBucket → Option CacheBucket
  | none => some { appVersion := some slmVersion, entries := [(k, m)] }
  | some b => some { b with entries := alInsert k m b.entries }

/-- External collaborators of `getGameMetadata`: the key-availability probe
(`keys != nil && keys.GetKey("header_key") != ""`), the running application
version `settings.SLM_VERSION`, and the three opaque structural parsers. -/
structure ResolveEnv where
  hasKeys : Bool
  slmVersion : String
  nspParse : String → Except String (List ContentMetaAttributes)
  xciParse : String → Except String (List ContentMetaAttributes)
  splitParse : String → Except String (List ContentMetaAttributes)

/-- `fileKey := filePath + "|" + file.Info.Name() + "|" + strconv.Itoa(int(file.Info.Size()))`. -/
def fileKey (filePath : String) (file : FileMeta) : String :=
  filePath ++ "|" ++ file.name ++ "|" ++ toString file.size

/-- The filename-fallback tail of `getGameMetadata` (source lines 386-398). -/
def fallbackResolve (name : String) : Except String (List ContentMetaAttributes) :=
  match parseTitleIdFromFileName name, parseVersionFromFileName name with
  | some titleId, some version => .ok [⟨titleId, version, ""⟩]
  | _, _ => .error "unable to determine titileId / version"

/-- The three outputs of `getGameMetadata`: the returned mapping or error,
the skipped map (it may gain a malformed-file entry), and the cache. -/
structure ResolveOut where
  result : Except String (List ContentMetaAttributes)
  skipped : List (FileMeta × SkippedFile)
  cache : Option CacheBucket

/-- `strings.HasSuffix(fileName, "nsp") || strings.HasSuffix(fileName, "nsz")`. -/
def isNspName (n : String) : Bool := goHasSuffix n "nsp" || goHasSuffix n "nsz"

/-- `strings.HasSuffix(fileName, "xci") || strings.HasSuffix(fileName, "xcz")`. -/
def isXciName (n : String) : Bool := goHasSuffix n "xci" || goHasSuffix n "xcz"

/-- The structural-parser dispatch of `getGameMetadata` (source lines
334-355): pick a parser by the lower-cased file name's shape; a parser
error records a malformed-file skip and leaves the metadata unset. -/
def structuralStep (env : ResolveEnv) (file : FileMeta) (filePath : String)
    (skipped : List (FileMeta × SkippedFile)) :
    Option (List ContentMetaAttributes) × List (FileMeta × SkippedFile) :=
  let fileName := strLower file.name
  if isNspName fileName then
    match env.nspParse filePath with
    | .ok m => (some m, skipped)
    | .error e =>
      (none, alInsert file
        ⟨REASON_MALFORMED_FILE, "failed to read NSP [reason: " ++ e ++ "]"⟩ skipped)
  else if isXciName fileName then
    match env.xciParse filePath with
    | .ok m => (some m, skipped)
    | .error e =>
      -- the source reuses the NSP wording in the XCI branch
      (none, alInsert file
        ⟨REASON_MALFORMED_FILE, "failed to read NSP [reason: " ++ e ++ "]"⟩ skipped)
  else if goHasSuffix fileName "00" then
    match env.splitParse filePath with
    | .ok m => (some m, skipped)
    | .error e =>
      (none, alInsert file
        ⟨REASON_MALFORMED_FILE, "failed to read split files [reason: " ++ e ++ "]"⟩ skipped)
  else (none, skipped)

/-- Embedding of `getGameMetadata` (source lines 298-399): cache lookup
(keys permitting) with immediate return on a hit, structural parse by file
shape, write-through to the cache on parser success, filename fallback
whenever no structural metadata was obtained.  A failed cache decode is a
miss and is not modelled separately. -/
def getGameMetadata (env : ResolveEnv) (file : FileMeta) (filePath : String)
    (skipped : List (FileMeta × SkippedFile)) (cache : Option CacheBucket) : ResolveOut :=
  let k := fileKey filePath file
  if env.hasKeys then
    match cacheGet cache k with
    | some m => ⟨.ok m, skipped, cache⟩
    | none =>
      match structuralStep env file filePath skipped with
      | (some m, sk) => ⟨.ok m, sk, cachePut env.slmVersion k m cache⟩
      | (none, sk) => ⟨fallbackResolve file.name, sk, cache⟩
  else ⟨fallbackResolve file.name, skipped, cache⟩

/-! ## Per-file processing -/

/-- `filepath.Join` (path cleaning not modelled). -/
def goPathJoin (a b : String) : String := a ++ "/" ++ b

/-- The tail of the per-file loop body, shared by the split-segment and the
extension-matched paths (source lines 209-285): resolve the file's
metadata, record an unrecognised skip on failure unless a skip was already
recorded, classify each content entry on success. -/
def processSupported (env : ResolveEnv) (st : ClassifyState) (cache : Option CacheBucket)
    (file : FileMeta) (isSplit : Bool) : ClassifyState × Option CacheBucket :=
  let filePath := goPathJoin file.baseFolder file.name
  let out := getGameMetadata env file filePath st.skipped cache
  match out.result with
  | .error e =>
    let sk :=
      match alLookup file out.skipped with
      | some _ => out.skipped
      | none =>
        alInsert file
          ⟨REASON_UNRECOGNISED, "unable to determine title-Id / version - " ++ e⟩
          out.skipped
    ({ st with skipped := sk }, out.cache)
  | .ok contentMap =>
    (classifyFile file isSplit contentMap { st with skipped := out.skipped }, out.cache)

/-- One iteration of the outer `for _, file := range files` loop of
`processLocalFiles` (source lines 174-286): directory skip, split-segment
detection, extension filter, then `processSupported`. -/
def processOneFile (env : ResolveEnv) (acc : ClassifyState × Option CacheBucket)
    (file : FileMeta) : ClassifyState × Option CacheBucket :=
  let st := acc.1
  let cache := acc.2
  if file.isDir then acc
  else
    let fileName := strLower file.name
    match goAtoi ⟨takeLast2 fileName.data⟩ with
    | some partNum =>
      if partNum = 0 then
        -- first split segment: resolution proceeds with isSplit = true
        processSupported env st cache file true
      else
        -- a non-first split segment: dropped with no skip record
        acc
    | none =>
      if !goHasSuffix fileName "xci" && !goHasSuffix fileName "nsp" &&
          !goHasSuffix fileName "nsz" && !goHasSuffix fileName "xcz" then
        ({ st with
            skipped := alInsert file
              ⟨REASON_UNSUPPORTED_TYPE, "file type is not supported"⟩ st.skipped },
          cache)
      else processSupported env st cache file false

/-- Embedding of `processLocalFiles`: fold the per-file step over the
discovered file list. -/
def processLocalFiles (env : ResolveEnv) (files : List FileMeta)
    (st : ClassifyState) (cache : Option CacheBucket) : ClassifyState × Option CacheBucket :=
  files.foldl (processOneFile env) (st, cache)

/-! ## Database-open version guard -/

/-- The cache-state effect of the version-check block of
`NewLocalSwitchDBManager` (source lines 48-71): a missing bucket stays
missing; a bucket without an `app_version` marker is deleted; a bucket
with a marker is kept — the decoded version is assigned to a local
variable and never compared with the running version. -/
def newManagerCacheGuard (cache : Option CacheBucket) : Option CacheBucket :=
  match cache with
  | none => none
  | some b =>
    match b.appVersion with
    | none => none
    | some _ => some b

/-! ## Event view of the classifier

`runEvents` flattens the nested per-file / per-content loops: one `Event`
is one execution of `processContent`.  `classifyFile` is literally a fold
of `processContent` over a file's content list, so any interleaved
execution of `processLocalFiles` is an `runEvents` run. -/

structure Event where
  file : FileMeta
  multi : Bool
  split : Bool
  md : ContentMetaAttributes
deriving DecidableEq

def runEvents (evs : List Event) (st : ClassifyState) : ClassifyState :=
  evs.foldl (fun s e => processContent e.file e.multi e.split e.md s) st

/-! ## Branch anatomy of `processContent`

Named pieces of the classifier step, and one lemma per control-flow branch
of the source's per-content loop body.  `lookedUp` is the record the loop
reads or freshly creates for the entry's title-id prefix. -/

def lookedUp (st : ClassifyState) (multi split : Bool) (md : ContentMetaAttributes) :
    SwitchGameFiles :=
  (alLookup (idPfx md.TitleId) st.titles).getD (freshTitle multi split)

def updMd (md : ContentMetaAttributes) : ContentMetaAttributes := { md with ctype := "Update" }

def baseMd (md : ContentMetaAttributes) : ContentMetaAttributes := { md with ctype := "Base" }

def dlcMd (md : ContentMetaAttributes) : ContentMetaAttributes := { md with ctype := "DLC" }

/-- The record after `switchTitle.Updates[metadata.Version] = ...`. -/
def updStore (r : SwitchGameFiles) (file : FileMeta) (md : ContentMetaAttributes) :
    SwitchGameFiles :=
  { r with Updates := alInsert md.Version ⟨file, updMd md⟩ r.Updates }

/-- `updStore` followed by `switchTitle.LatestUpdate = metadata.Version`. -/
def updAccept (r : SwitchGameFiles) (file : FileMeta) (md : ContentMetaAttributes) :
    SwitchGameFiles :=
  { updStore r file md with LatestUpdate := md.Version }

/-- The record after the Base slot is installed. -/
def baseStore (r : SwitchGameFiles) (file : FileMeta) (md : ContentMetaAttributes) :
    SwitchGameFiles :=
  { r with File := ⟨file, baseMd md⟩, BaseExist := true }

/-- The record after `switchTitle.Dlc[metadata.TitleId] = ...`. -/
def dlcStore (r : SwitchGameFiles) (file : FileMeta) (md : ContentMetaAttributes) :
    SwitchGameFiles :=
  { r with Dlc := alInsert md.TitleId ⟨file, dlcMd md⟩ r.Dlc }

/-- The file displaced from the latest-update slot, as the source reads it
(`switchTitle.Updates[switchTitle.LatestUpdate].ExtendedInfo`, zero value
if the slot were missing). -/
def prevLatestFile (r : SwitchGameFiles) : FileMeta :=
  ((alLookup r.LatestUpdate r.Updates).getD zeroSwitchFileInfo).ExtendedInfo

def oldUpdSkip : SkippedFile :=
  ⟨REASON_OLD_UPDATE, "old update file, newer update exist locally"⟩

def oldDlcSkip : SkippedFile :=
  ⟨REASON_OLD_UPDATE, "old DLC file, newer version exist locally"⟩

def dupUpdSkip (n : String) : SkippedFile :=
  ⟨REASON_DUPLICATE, "duplicate update file (" ++ n ++ ")"⟩

def dupBaseSkip (n : String) : SkippedFile :=
  ⟨REASON_DUPLICATE, "duplicate base file (" ++ n ++ ")"⟩

def dupDlcSkip (n : String) : SkippedFile :=
  ⟨REASON_DUPLICATE, "duplicate DLC file (" ++ n ++ ")"⟩

theorem pc_upd_dup (file : FileMeta) (multi split : Bool) (md : ContentMetaAttributes)
    (st : ClassifyState) (r : SwitchGameFiles) (u : SwitchFileInfo)
    (hr : lookedUp st multi split md = r)
    (h8 : goHasSuffix md.TitleId "800" = true)
    (hu : alLookup md.Version r.Updates = some u) :
    processContent file multi split md st =
      ⟨alInsert (idPfx md.TitleId) r st.titles,
       alInsert file (dupUpdSkip u.ExtendedInfo.name) st.skipped⟩ := by
  simp only [processContent, lookedUp] at hr ⊢
  rw [hr, h8]
  simp only [if_true]
  rw [show ({ md with ctype := "Update" } : ContentMetaAttributes).Version = md.Version from rfl,
    hu]
  rfl

theorem pc_upd_accept (file : FileMeta) (multi split : Bool) (md : ContentMetaAttributes)
    (st : ClassifyState) (r : SwitchGameFiles)
    (hr : lookedUp st multi split md = r)
    (h8 : goHasSuffix md.TitleId "800" = true)
    (hnone : alLookup md.Version r.Updates = none)
    (hgt : r.LatestUpdate < md.Version) :
    processContent file multi split md st =
      ⟨alInsert (idPfx md.TitleId) (updAccept r file md) st.titles,
       if r.LatestUpdate ≠ 0 then alInsert (prevLatestFile r) oldUpdSkip st.skipped
       else st.skipped⟩ := by
  simp only [processContent, lookedUp] at hr ⊢
  rw [hr, h8]
  simp only [if_true]
  rw [show ({ md with ctype := "Update" } : ContentMetaAttributes).Version = md.Version from rfl,
    hnone]
  simp only [gt_iff_lt, hgt, if_true]
  have hne : md.Version ≠ r.LatestUpdate := fun h => absurd (h ▸ hgt) (lt_irrefl _)
  rw [alLookup_alInsert_ne r.LatestUpdate md.Version _ r.Updates hne]
  rfl

theorem pc_upd_reject (file : FileMeta) (multi split : Bool) (md : ContentMetaAttributes)
    (st : ClassifyState) (r : SwitchGameFiles)
    (hr : lookedUp st multi split md = r)
    (h8 : goHasSuffix md.TitleId "800" = true)
    (hnone : alLookup md.Version r.Updates = none)
    (hle : ¬ r.LatestUpdate < md.Version) :
    processContent file multi split md st =
      ⟨alInsert (idPfx md.TitleId) (updStore r file md) st.titles,
       alInsert file oldUpdSkip st.skipped⟩ := by
  simp only [processContent, lookedUp] at hr ⊢
  rw [hr, h8]
  simp only [if_true]
  rw [show ({ md with ctype := "Update" } : ContentMetaAttributes).Version = md.Version from rfl,
    hnone]
  simp only [gt_iff_lt, hle, if_false]
  rfl

theorem pc_base_dup (file : FileMeta) (multi split : Bool) (md : ContentMetaAttributes)
    (st : ClassifyState) (r : SwitchGameFiles)
    (hr : lookedUp st multi split md = r)
    (h8 : goHasSuffix md.TitleId "800" = false)
    (h0 : goHasSuffix md.TitleId "000" = true)
    (hbe : r.BaseExist = true) :
    processContent file multi split md st =
      ⟨alInsert (idPfx md.TitleId) r st.titles,
       alInsert file (dupBaseSkip r.File.ExtendedInfo.name) st.skipped⟩ := by
  simp only [processContent, lookedUp] at hr ⊢
  rw [hr, h8, h0]
  simp only [Bool.false_eq_true, if_false, if_true, hbe]
  rfl

theorem pc_base_install (file : FileMeta) (multi split : Bool) (md : ContentMetaAttributes)
    (st : ClassifyState) (r : SwitchGameFiles)
    (hr : lookedUp st multi split md = r)
    (h8 : goHasSuffix md.TitleId "800" = false)
    (h0 : goHasSuffix md.TitleId "000" = true)
    (hbe : r.BaseExist = false) :
    processContent file multi split md st =
      ⟨alInsert (idPfx md.TitleId) (baseStore r file md) st.titles, st.skipped⟩ := by
  simp only [processContent, lookedUp] at hr ⊢
  rw [hr, h8, h0]
  simp only [Bool.false_eq_true, if_false, if_true, hbe]
  rfl

theorem pc_dlc_old (file : FileMeta) (multi split : Bool) (md : ContentMetaAttributes)
    (st : ClassifyState) (r : SwitchGameFiles) (dlc : SwitchFileInfo)
    (hr : lookedUp st multi split md = r)
    (h8 : goHasSuffix md.TitleId "800" = false)
    (h0 : goHasSuffix md.TitleId "000" = false)
    (hd : alLookup md.TitleId r.Dlc = some dlc)
    (hlt : md.Version < dlc.Metadata.Version) :
    processContent file multi split md st =
      ⟨alInsert (idPfx md.TitleId) r st.titles,
       alInsert file oldDlcSkip st.skipped⟩ := by
  simp only [processContent, lookedUp] at hr ⊢
  rw [hr, h8, h0]
  simp only [Bool.false_eq_true, if_false, hd]
  simp only [hlt, if_true]
  rfl

theorem pc_dlc_dup (file : FileMeta) (multi split : Bool) (md : ContentMetaAttributes)
    (st : ClassifyState) (r : SwitchGameFiles) (dlc : SwitchFileInfo)
    (hr : lookedUp st multi split md = r)
    (h8 : goHasSuffix md.TitleId "800" = false)
    (h0 : goHasSuffix md.TitleId "000" = false)
    (hd : alLookup md.TitleId r.Dlc = some dlc)
    (heq : md.Version = dlc.Metadata.Version) :
    processContent file multi split md st =
      ⟨alInsert (idPfx md.TitleId) r st.titles,
       alInsert file (dupDlcSkip dlc.ExtendedInfo.name) st.skipped⟩ := by
  have hnlt : ¬ md.Version < dlc.Metadata.Version := by rw [heq]; exact lt_irrefl _
  simp only [processContent, lookedUp] at hr ⊢
  rw [hr, h8, h0]
  simp only [Bool.false_eq_true, if_false, hd]
  rw [if_neg hnlt, if_pos heq]
  rfl

theorem pc_dlc_replace (file : FileMeta) (multi split : Bool) (md : ContentMetaAttributes)
    (st : ClassifyState) (r : SwitchGameFiles) (dlc : SwitchFileInfo)
    (hr : lookedUp st multi split md = r)
    (h8 : goHasSuffix md.TitleId "800" = false)
    (h0 : goHasSuffix md.TitleId "000" = false)
    (hd : alLookup md.TitleId r.Dlc = some dlc)
    (hgt : dlc.Metadata.Version < md.Version) :
    processContent file multi split md st =
      ⟨alInsert (idPfx md.TitleId) (dlcStore r file md) st.titles, st.skipped⟩ := by
  have hnlt : ¬ md.Version < dlc.Metadata.Version := fun h => absurd (h.trans hgt) (lt_irrefl _)
  have hne : ¬ md.Version = dlc.Metadata.Version := fun h => absurd (h ▸ hgt) (lt_irrefl _)
  simp only [processContent, lookedUp] at hr ⊢
  rw [hr, h8, h0]
  simp only [Bool.false_eq_true, if_false, hd]
  rw [if_neg hnlt, if_neg hne]
  rfl

theorem pc_dlc_new (file : FileMeta) (multi split : Bool) (md : ContentMetaAttributes)
    (st : ClassifyState) (r : SwitchGameFiles)
    (hr : lookedUp st multi split md = r)
    (h8 : goHasSuffix md.TitleId "800" = false)
    (h0 : goHasSuffix md.TitleId "000" = false)
    (hd : alLookup md.TitleId r.Dlc = none) :
    processContent file multi split md st =
      ⟨alInsert (idPfx md.TitleId) (dlcStore r file md) st.titles, st.skipped⟩ := by
  simp only [processContent, lookedUp] at hr ⊢
  rw [hr, h8, h0]
  simp only [Bool.false_eq_true, if_false, hd]
  rfl

theorem listStarts_cons_iff (p : Char) (ps l : List Char) :
    listStarts (p :: ps) l = true ↔ ∃ t, l = p :: t ∧ listStarts ps t = true := by
  cases l with
  | nil => simp [listStarts]
  | cons c cs =>
    by_cases h : p = c
    · subst h
      simp [listStarts]
    · constructor
      · intro hh
        rw [listStarts, if_neg h] at hh
        exact absurd hh (by simp)
      · rintro ⟨t, ht, _⟩
        cases ht
        exact absurd rfl h

/-- A title id with the Base suffix does not have the Update suffix: the
two three-character suffixes differ. -/
theorem suffix000_not_suffix800 (s : String) (h : goHasSuffix s "000" = true) :
    goHasSuffix s "800" = false := by
  have h0 : listStarts ['0', '0', '0'] s.data.reverse = true := h
  show listStarts ['0', '0', '8'] s.data.reverse = false
  obtain ⟨t1, ht1, h1⟩ := (listStarts_cons_iff _ _ _).mp h0
  obtain ⟨t2, ht2, h2⟩ := (listStarts_cons_iff _ _ _).mp h1
  obtain ⟨t3, ht3, _⟩ := (listStarts_cons_iff _ _ _).mp h2
  rw [ht1, ht2, ht3]
  rw [listStarts, if_pos rfl, listStarts, if_pos rfl, listStarts, if_neg (by decide)]

/-- A previously recorded skip entry survives any further Go map
assignment (possibly with a new value). -/
theorem alLookup_alInsert_isSome {α β : Type} [DecidableEq α] (k g : α) (v : β)
    (l : List (α × β)) (s : β) (h : alLookup k l = some s) :
    ∃ s', alLookup k (alInsert g v l) = some s' := by
  by_cases hg : g = k
  · exact ⟨v, by rw [hg, alLookup_alInsert_self]⟩
  · exact ⟨s, by rw [alLookup_alInsert_ne k g v l hg]; exact h⟩

/-- Exhaustive enumeration of the control-flow branches of one
`processContent` step, phrased over the record `r` the step reads. -/
theorem processContent_cases (file : FileMeta) (multi split : Bool)
    (md : ContentMetaAttributes) (st : ClassifyState) (r : SwitchGameFiles)
    (hr : lookedUp st multi split md = r) :
    (goHasSuffix md.TitleId "800" = true ∧
      ((∃ u, alLookup md.Version r.Updates = some u ∧
          processContent file multi split md st =
            ⟨alInsert (idPfx md.TitleId) r st.titles,
             alInsert file (dupUpdSkip u.ExtendedInfo.name) st.skipped⟩) ∨
       (alLookup md.Version r.Updates = none ∧ r.LatestUpdate < md.Version ∧
          processContent file multi split md st =
            ⟨alInsert (idPfx md.TitleId) (updAccept r file md) st.titles,
             if r.LatestUpdate ≠ 0 then alInsert (prevLatestFile r) oldUpdSkip st.skipped
             else st.skipped⟩) ∨
       (alLookup md.Version r.Updates = none ∧ ¬ r.LatestUpdate < md.Version ∧
          processContent file multi split md st =
            ⟨alInsert (idPfx md.TitleId) (updStore r file md) st.titles,
             alInsert file oldUpdSkip st.skipped⟩))) ∨
    (goHasSuffix md.TitleId "800" = false ∧ goHasSuffix md.TitleId "000" = true ∧
      ((r.BaseExist = true ∧
          processContent file multi split md st =
            ⟨alInsert (idPfx md.TitleId) r st.titles,
             alInsert file (dupBaseSkip r.File.ExtendedInfo.name) st.skipped⟩) ∨
       (r.BaseExist = false ∧
          processContent file multi split md st =
            ⟨alInsert (idPfx md.TitleId) (baseStore r file md) st.titles, st.skipped⟩))) ∨
    (goHasSuffix md.TitleId "800" = false ∧ goHasSuffix md.TitleId "000" = false ∧
      ((∃ dlc, alLookup md.TitleId r.Dlc = some dlc ∧ md.Version < dlc.Metadata.Version ∧
          processContent file multi split md st =
            ⟨alInsert (idPfx md.TitleId) r st.titles,
             alInsert file oldDlcSkip st.skipped⟩) ∨
       (∃ dlc, alLookup md.TitleId r.Dlc = some dlc ∧ md.Version = dlc.Metadata.Version ∧
          processContent file multi split md st =
            ⟨alInsert (idPfx md.TitleId) r st.titles,
             alInsert file (dupDlcSkip dlc.ExtendedInfo.name) st.skipped⟩) ∨
       (∃ dlc, alLookup md.TitleId r.Dlc = some dlc ∧ dlc.Metadata.Version < md.Version ∧
          processContent file multi split md st =
            ⟨alInsert (idPfx md.TitleId) (dlcStore r file md) st.titles, st.skipped⟩) ∨
       (alLookup md.TitleId r.Dlc = none ∧
          processContent file multi split md st =
            ⟨alInsert (idPfx md.TitleId) (dlcStore r file md) st.titles, st.skipped⟩))) := by
  by_cases h8 : goHasSuffix md.TitleId "800" = true
  · left
    refine ⟨h8, ?_⟩
    cases hu : alLookup md.Version r.Updates with
    | some u => exact Or.inl ⟨u, rfl, pc_upd_dup file multi split md st r u hr h8 hu⟩
    | none =>
      by_cases hgt : r.LatestUpdate < md.Version
      · exact Or.inr (Or.inl ⟨rfl, hgt, pc_upd_accept file multi split md st r hr h8 hu hgt⟩)
      · exact Or.inr (Or.inr ⟨rfl, hgt, pc_upd_reject file multi split md st r hr h8 hu hgt⟩)
  · have h8f : goHasSuffix md.TitleId "800" = false := by
      revert h8
      cases goHasSuffix md.TitleId "800" <;> simp
    by_cases h0 : goHasSuffix md.TitleId "000" = true
    · right; left
      refine ⟨h8f, h0, ?_⟩
      cases hbe : r.BaseExist with
      | true => exact Or.inl ⟨rfl, pc_base_dup file multi split md st r hr h8f h0 hbe⟩
      | false => exact Or.inr ⟨rfl, pc_base_install file multi split md st r hr h8f h0 hbe⟩
    · have h0f : goHasSuffix md.TitleId "000" = false := by
        revert h0
        cases goHasSuffix md.TitleId "000" <;> simp
      right; right
      refine ⟨h8f, h0f, ?_⟩
      cases hd : alLookup md.TitleId r.Dlc with
      | some dlc =>
        rcases lt_trichotomy md.Version dlc.Metadata.Version with hlt | heq | hgt
        · exact Or.inl ⟨dlc, rfl, hlt, pc_dlc_old file multi split md st r dlc hr h8f h0f hd hlt⟩
        · exact Or.inr (Or.inl
            ⟨dlc, rfl, heq, pc_dlc_dup file multi split md st r dlc hr h8f h0f hd heq⟩)
        · exact Or.inr (Or.inr (Or.inl
            ⟨dlc, rfl, hgt, pc_dlc_replace file multi split md st r dlc hr h8f h0f hd hgt⟩))
      | none =>
        exact Or.inr (Or.inr (Or.inr ⟨rfl, pc_dlc_new file multi split md st r hr h8f h0f hd⟩))

/-! ## Branch anatomy of `structuralStep` and `getGameMetadata` -/

theorem structuralStep_nsp_ok (env : ResolveEnv) (file : FileMeta) (filePath : String)
    (sk : List (FileMeta × SkippedFile)) (m : List ContentMetaAttributes)
    (h : isNspName (strLower file.name) = true)
    (hp : env.nspParse filePath = .ok m) :
    structuralStep env file filePath sk = (some m, sk) := by
  simp only [structuralStep, h, if_true, hp]

theorem structuralStep_nsp_err (env : ResolveEnv) (file : FileMeta) (filePath : String)
    (sk : List (FileMeta × SkippedFile)) (e : String)
    (h : isNspName (strLower file.name) = true)
    (hp : env.nspParse filePath = .error e) :
    structuralStep env file filePath sk =
      (none, alInsert file
        ⟨REASON_MALFORMED_FILE, "failed to read NSP [reason: " ++ e ++ "]"⟩ sk) := by
  simp only [structuralStep, h, if_true, hp]

theorem structuralStep_xci_ok (env : ResolveEnv) (file : FileMeta) (filePath : String)
    (sk : List (FileMeta × SkippedFile)) (m : List ContentMetaAttributes)
    (h1 : isNspName (strLower file.name) = false)
    (h2 : isXciName (strLower file.name) = true)
    (hp : env.xciParse filePath = .ok m) :
    structuralStep env file filePath sk = (some m, sk) := by
  simp only [structuralStep, h1, h2, Bool.false_eq_true, if_false, if_true, hp]

theorem structuralStep_xci_err (env : ResolveEnv) (file : FileMeta) (filePath : String)
    (sk : List (FileMeta × SkippedFile)) (e : String)
    (h1 : isNspName (strLower file.name) = false)
    (h2 : isXciName (strLower file.name) = true)
    (hp : env.xciParse filePath = .error e) :
    structuralStep env file filePath sk =
      (none, alInsert file
        ⟨REASON_MALFORMED_FILE, "failed to read NSP [reason: " ++ e ++ "]"⟩ sk) := by
  simp only [structuralStep, h1, h2, Bool.false_eq_true, if_false, if_true, hp]

theorem structuralStep_split_ok (env : ResolveEnv) (file : FileMeta) (filePath : String)
    (sk : List (FileMeta × SkippedFile)) (m : List ContentMetaAttributes)
    (h1 : isNspName (strLower file.name) = false)
    (h2 : isXciName (strLower file.name) = false)
    (h3 : goHasSuffix (strLower file.name) "00" = true)
    (hp : env.splitParse filePath = .ok m) :
    structuralStep env file filePath sk = (some m, sk) := by
  simp only [structuralStep, h1, h2, h3, Bool.false_eq_true, if_false, if_true, hp]

theorem structuralStep_split_err (env : ResolveEnv) (file : FileMeta) (filePath : String)
    (sk : List (FileMeta × SkippedFile)) (e : String)
    (h1 : isNspName (strLower file.name) = false)
    (h2 : isXciName (strLower file.name) = false)
    (h3 : goHasSuffix (strLower file.name) "00" = true)
    (hp : env.splitParse filePath = .error e) :
    structuralStep env file filePath sk =
      (none, alInsert file
        ⟨REASON_MALFORMED_FILE, "failed to read split files [reason: " ++ e ++ "]"⟩ sk) := by
  simp only [structuralStep, h1, h2, h3, Bool.false_eq_true, if_false, if_true, hp]

theorem structuralStep_noShape (env : ResolveEnv) (file : FileMeta) (filePath : String)
    (sk : List (FileMeta × SkippedFile))
    (h1 : isNspName (strLower file.name) = false)
    (h2 : isXciName (strLower file.name) = false)
    (h3 : goHasSuffix (strLower file.name) "00" = false) :
    structuralStep env file filePath sk = (none, sk) := by
  simp only [structuralStep, h1, h2, h3, Bool.false_eq_true, if_false]

theorem structuralStep_skipped_cases (env : ResolveEnv) (file : FileMeta) (filePath : String)
    (sk : List (FileMeta × SkippedFile)) :
    (structuralStep env file filePath sk).2 = sk ∨
    ∃ t, (structuralStep env file filePath sk).2 =
      alInsert file ⟨REASON_MALFORMED_FILE, t⟩ sk := by
  by_cases h1 : isNspName (strLower file.name) = true
  · cases hp : env.nspParse filePath with
    | ok m => left; rw [structuralStep_nsp_ok env file filePath sk m h1 hp]
    | error e => right; exact ⟨_, by rw [structuralStep_nsp_err env file filePath sk e h1 hp]⟩
  · have h1f : isNspName (strLower file.name) = false := by
      revert h1; cases isNspName (strLower file.name) <;> simp
    by_cases h2 : isXciName (strLower file.name) = true
    · cases hp : env.xciParse filePath with
      | ok m => left; rw [structuralStep_xci_ok env file filePath sk m h1f h2 hp]
      | error e =>
        right; exact ⟨_, by rw [structuralStep_xci_err env file filePath sk e h1f h2 hp]⟩
    · have h2f : isXciName (strLower file.name) = false := by
        revert h2; cases isXciName (strLower file.name) <;> simp
      by_cases h3 : goHasSuffix (strLower file.name) "00" = true
      · cases hp : env.splitParse filePath with
        | ok m => left; rw [structuralStep_split_ok env file filePath sk m h1f h2f h3 hp]
        | error e =>
          right; exact ⟨_, by rw [structuralStep_split_err env file filePath sk e h1f h2f h3 hp]⟩
      · have h3f : goHasSuffix (strLower file.name) "00" = false := by
          revert h3; cases goHasSuffix (strLower file.name) "00" <;> simp
        left; rw [structuralStep_noShape env file filePath sk h1f h2f h3f]

theorem structuralStep_some_cases (env : ResolveEnv) (file : FileMeta) (filePath : String)
    (sk sk' : List (FileMeta × SkippedFile)) (m : List ContentMetaAttributes)
    (h : structuralStep env file filePath sk = (some m, sk')) :
    sk' = sk ∧
    ((isNspName (strLower file.name) = true ∧ env.nspParse filePath = .ok m) ∨
     (isNspName (strLower file.name) = false ∧ isXciName (strLower file.name) = true ∧
       env.xciParse filePath = .ok m) ∨
     (isNspName (strLower file.name) = false ∧ isXciName (strLower file.name) = false ∧
       goHasSuffix (strLower file.name) "00" = true ∧ env.splitParse filePath = .ok m)) := by
  by_cases h1 : isNspName (strLower file.name) = true
  · cases hp : env.nspParse filePath with
    | ok m0 =>
      rw [structuralStep_nsp_ok env file filePath sk m0 h1 hp] at h
      obtain ⟨hm, hsk⟩ := Prod.mk.injEq .. ▸ h
      cases Option.some.inj hm
      exact ⟨hsk.symm, Or.inl ⟨h1, rfl⟩⟩
    | error e =>
      rw [structuralStep_nsp_err env file filePath sk e h1 hp] at h
      exact absurd (congrArg Prod.fst h) (by simp)
  · have h1f : isNspName (strLower file.name) = false := by
      revert h1; cases isNspName (strLower file.name) <;> simp
    by_cases h2 : isXciName (strLower file.name) = true
    · cases hp : env.xciParse filePath with
      | ok m0 =>
        rw [structuralStep_xci_ok env file filePath sk m0 h1f h2 hp] at h
        obtain ⟨hm, hsk⟩ := Prod.mk.injEq .. ▸ h
        cases Option.some.inj hm
        exact ⟨hsk.symm, Or.inr (Or.inl ⟨h1f, h2, rfl⟩)⟩
      | error e =>
        rw [structuralStep_xci_err env file filePath sk e h1f h2 hp] at h
        exact absurd (congrArg Prod.fst h) (by simp)
    · have h2f : isXciName (strLower file.name) = false := by
        revert h2; cases isXciName (strLower file.name) <;> simp
      by_cases h3 : goHasSuffix (strLower file.name) "00" = true
      · cases hp : env.splitParse filePath with
        | ok m0 =>
          rw [structuralStep_split_ok env file filePath sk m0 h1f h2f h3 hp] at h
          obtain ⟨hm, hsk⟩ := Prod.mk.injEq .. ▸ h
          cases Option.some.inj hm
          exact ⟨hsk.symm, Or.inr (Or.inr ⟨h1f, h2f, h3, rfl⟩)⟩
        | error e =>
          rw [structuralStep_split_err env file filePath sk e h1f h2f h3 hp] at h
          exact absurd (congrArg Prod.fst h) (by simp)
      · have h3f : goHasSuffix (strLower file.name) "00" = false := by
          revert h3; cases goHasSuffix (strLower file.name) "00" <;> simp
        rw [structuralStep_noShape env file filePath sk h1f h2f h3f] at h
        exact absurd (congrArg Prod.fst h) (by simp)

theorem getGameMetadata_noKeys (env : ResolveEnv) (file : FileMeta) (filePath : String)
    (sk : List (FileMeta × SkippedFile)) (cache : Option CacheBucket)
    (h : env.hasKeys = false) :
    getGameMetadata env file filePath sk cache = ⟨fallbackResolve file.name, sk, cache⟩ := by
  simp only [getGameMetadata, h, Bool.false_eq_true, if_false]

theorem getGameMetadata_cacheHit (env : ResolveEnv) (file : FileMeta) (filePath : String)
    (sk : List (FileMeta × SkippedFile)) (cache : Option CacheBucket)
    (m : List ContentMetaAttributes)
    (h : env.hasKeys = true)
    (hc : cacheGet cache (fileKey filePath file) = some m) :
    getGameMetadata env file filePath sk cache = ⟨.ok m, sk, cache⟩ := by
  simp only [getGameMetadata, h, if_true, hc]

theorem getGameMetadata_structHit (env : ResolveEnv) (file : FileMeta) (filePath : String)
    (sk sk' : List (FileMeta × SkippedFile)) (cache : Option CacheBucket)
    (m : List ContentMetaAttributes)
    (h : env.hasKeys = true)
    (hc : cacheGet cache (fileKey filePath file) = none)
    (hs : structuralStep env file filePath sk = (some m, sk')) :
    getGameMetadata env file filePath sk cache =
      ⟨.ok m, sk', cachePut env.slmVersion (fileKey filePath file) m cache⟩ := by
  simp only [getGameMetadata, h, if_true, hc, hs]

theorem getGameMetadata_structMiss (env : ResolveEnv) (file : FileMeta) (filePath : String)
    (sk sk' : List (FileMeta × SkippedFile)) (cache : Option CacheBucket)
    (h : env.hasKeys = true)
    (hc : cacheGet cache (fileKey filePath file) = none)
    (hs : structuralStep env file filePath sk = (none, sk')) :
    getGameMetadata env file filePath sk cache = ⟨fallbackResolve file.name, sk', cache⟩ := by
  simp only [getGameMetadata, h, if_true, hc, hs]

theorem getGameMetadata_skipped_cases (env : ResolveEnv) (file : FileMeta) (filePath : String)
    (sk : List (FileMeta × SkippedFile)) (cache : Option CacheBucket) :
    (getGameMetadata env file filePath sk cache).skipped = sk ∨
    ∃ t, (getGameMetadata env file filePath sk cache).skipped =
      alInsert file ⟨REASON_MALFORMED_FILE, t⟩ sk := by
  by_cases hk : env.hasKeys = true
  · cases hc : cacheGet cache (fileKey filePath file) with
    | some m => left; rw [getGameMetadata_cacheHit env file filePath sk cache m hk hc]
    | none =>
      cases hs : structuralStep env file filePath sk with
      | mk mo sk2 =>
        cases mo with
        | some m =>
          rw [getGameMetadata_structHit env file filePath sk sk2 cache m hk hc hs]
          left
          exact (structuralStep_some_cases env file filePath sk sk2 m hs).1
        | none =>
          rw [getGameMetadata_structMiss env file filePath sk sk2 cache hk hc hs]
          have hcases := structuralStep_skipped_cases env file filePath sk
          rw [hs] at hcases
          exact hcases
  · have hkf : env.hasKeys = false := by
      revert hk; cases env.hasKeys <;> simp
    left
    rw [getGameMetadata_noKeys env file filePath sk cache hkf]

/-! ## Concrete inputs used by counterexamples and witnesses -/

/-- A resolver environment with no header key available (deep scan off). -/
def plainEnv : ResolveEnv :=
  ⟨false, "1.0", fun _ => .error "unavailable", fun _ => .error "unavailable",
   fun _ => .error "unavailable"⟩

/-- A resolver environment with keys available whose structural parsers
all fail. -/
def failParseEnv : ResolveEnv :=
  ⟨true, "1.0", fun _ => .error "bad header", fun _ => .error "bad header",
   fun _ => .error "bad header"⟩

def bracketNspFile : FileMeta := ⟨"Some Game [0100ABCDEF123456][v65536].nsp", "/r", 77, false⟩

def segment01File : FileMeta := ⟨"game.nsp.01", "/r", 9, false⟩

def plainNspFile : FileMeta := ⟨"w.nsp", "/r", 1, false⟩

def updV0File : FileMeta := ⟨"A [0100000000000800][v0].nsp", "/r", 10, false⟩

def updV3File : FileMeta := ⟨"A [0100000000000800][v3].nsp", "/r", 10, false⟩

def updV1File : FileMeta := ⟨"B [0100000000000800][v1].nsp", "/r", 11, false⟩

def updV5File : FileMeta := ⟨"C [0100000000000800][v5].nsp", "/r", 12, false⟩

/-! ## Claim C2 — cache version guard -/

/-- C2: the claim states that a stored application-version marker that
differs from the running application version causes the whole cache bucket
to be deleted on open, so that the next lookup for every fingerprint
misses.  The code decodes the stored marker into a local variable and
never compares it with `settings.SLM_VERSION` (`newManagerCacheGuard`
does not even need the running version): with a stored marker "1.0.0" and
a running version "2.0.0" the bucket survives the open and a fingerprint
lookup still hits.  Evaluation of the embedded guard at that failing
input. -/
theorem c2_version_mismatch_lookup_still_hits :
    newManagerCacheGuard
        (some ⟨some "1.0.0", [("fp", [⟨"0100000000000000", 3, ""⟩])]⟩) =
      some ⟨some "1.0.0", [("fp", [⟨"0100000000000000", 3, ""⟩])]⟩ ∧
    ("1.0.0" : String) ≠ "2.0.0" ∧
    cacheGet
        (newManagerCacheGuard
          (some ⟨some "1.0.0", [("fp", [⟨"0100000000000000", 3, ""⟩])]⟩)) "fp" =
      some [⟨"0100000000000000", 3, ""⟩] :=
  ⟨rfl, by decide, rfl⟩

/-! ## Claim C3 — structural-parse failure is not terminal -/

/-- C3 counterexample: deep-parsing available, cache miss, the file's shape
is recognised (nsp), and the structural parser errors — yet resolution
succeeds with the metadata produced by the filename fallback parser, while
the malformed-file skip record sits in the skip map.  The claim says the
resolver must fail without returning a fallback mapping. -/
theorem c3_counterexample :
    (getGameMetadata failParseEnv bracketNspFile "/r/x" [] none).result =
      .ok [⟨"0100abcdef123456", 65536, ""⟩] ∧
    alLookup bracketNspFile (getGameMetadata failParseEnv bracketNspFile "/r/x" [] none).skipped =
      some ⟨REASON_MALFORMED_FILE, "failed to read NSP [reason: bad header]"⟩ :=
  ⟨rfl, rfl⟩

/-- C3 (amended): with deep parsing available, a cache miss, and a
recognised shape, a structural-parser error records a malformed-file skip
for the file, and the resolver then falls through to the filename fallback
parser: the returned value is exactly `fallbackResolve` of the name (so
resolution fails only when the filename lacks a bracketed token), the
cache is not written. -/
theorem c3_parse_failure_falls_back :
    (∀ env file filePath sk cache e, env.hasKeys = true →
       cacheGet cache (fileKey filePath file) = none →
       isNspName (strLower file.name) = true →
       env.nspParse filePath = .error e →
       getGameMetadata env file filePath sk cache =
         ⟨fallbackResolve file.name,
          alInsert file ⟨REASON_MALFORMED_FILE, "failed to read NSP [reason: " ++ e ++ "]"⟩ sk,
          cache⟩) ∧
    (∀ env file filePath sk cache e, env.hasKeys = true →
       cacheGet cache (fileKey filePath file) = none →
       isNspName (strLower file.name) = false →
       isXciName (strLower file.name) = true →
       env.xciParse filePath = .error e →
       getGameMetadata env file filePath sk cache =
         ⟨fallbackResolve file.name,
          alInsert file ⟨REASON_MALFORMED_FILE, "failed to read NSP [reason: " ++ e ++ "]"⟩ sk,
          cache⟩) ∧
    (∀ env file filePath sk cache e, env.hasKeys = true →
       cacheGet cache (fileKey filePath file) = none →
       isNspName (strLower file.name) = false →
       isXciName (strLower file.name) = false →
       goHasSuffix (strLower file.name) "00" = true →
       env.splitParse filePath = .error e →
       getGameMetadata env file filePath sk cache =
         ⟨fallbackResolve file.name,
          alInsert file
            ⟨REASON_MALFORMED_FILE, "failed to read split files [reason: " ++ e ++ "]"⟩ sk,
          cache⟩) := by
  refine ⟨?_, ?_, ?_⟩
  · intro env file filePath sk cache e hk hc h1 hp
    exact getGameMetadata_structMiss env file filePath sk _ cache hk hc
      (structuralStep_nsp_err env file filePath sk e h1 hp)
  · intro env file filePath sk cache e hk hc h1 h2 hp
    exact getGameMetadata_structMiss env file filePath sk _ cache hk hc
      (structuralStep_xci_err env file filePath sk e h1 h2 hp)
  · intro env file filePath sk cache e hk hc h1 h2 h3 hp
    exact getGameMetadata_structMiss env file filePath sk _ cache hk hc
      (structuralStep_split_err env file filePath sk e h1 h2 h3 hp)

/-- Witness for the amended C3 at a concrete environment. -/
theorem c3_parse_failure_falls_back_witness :
    getGameMetadata failParseEnv bracketNspFile "/r/x" [] none =
      ⟨fallbackResolve bracketNspFile.name,
       alInsert bracketNspFile
         ⟨REASON_MALFORMED_FILE, "failed to read NSP [reason: bad header]"⟩ [],
       none⟩ :=
  c3_parse_failure_falls_back.1 failParseEnv bracketNspFile "/r/x" [] none "bad header"
    rfl rfl rfl rfl

/-! ## Claim C8 — cache write policy -/

/-- C8: the cache is written only when the returned metadata was just
produced by a structural parser.  Part 1: without the deep-parsing
capability the resolver is the filename fallback with the cache and skip
map untouched (its output does not depend on the cache at all).  Part 2:
a cache hit returns the cached mapping with the cache untouched.  Part 3:
whenever the cache changes at all, the run was a keys-on cache miss whose
recognised shape parser succeeded, the result is exactly that parser's
mapping, and the cache change is exactly the write-through `cachePut`. -/
theorem c8_cache_write_policy :
    (∀ env file filePath sk cache, env.hasKeys = false →
       getGameMetadata env file filePath sk cache = ⟨fallbackResolve file.name, sk, cache⟩) ∧
    (∀ env file filePath sk cache m, env.hasKeys = true →
       cacheGet cache (fileKey filePath file) = some m →
       getGameMetadata env file filePath sk cache = ⟨.ok m, sk, cache⟩) ∧
    (∀ env file filePath sk cache,
       (getGameMetadata env file filePath sk cache).cache ≠ cache →
       env.hasKeys = true ∧ cacheGet cache (fileKey filePath file) = none ∧
       ∃ m, (getGameMetadata env file filePath sk cache).result = .ok m ∧
         (getGameMetadata env file filePath sk cache).skipped = sk ∧
         (getGameMetadata env file filePath sk cache).cache =
           cachePut env.slmVersion (fileKey filePath file) m cache ∧
         ((isNspName (strLower file.name) = true ∧ env.nspParse filePath = .ok m) ∨
          (isNspName (strLower file.name) = false ∧ isXciName (strLower file.name) = true ∧
            env.xciParse filePath = .ok m) ∨
          (isNspName (strLower file.name) = false ∧ isXciName (strLower file.name) = false ∧
            goHasSuffix (strLower file.name) "00" = true ∧
            env.splitParse filePath = .ok m))) := by
  refine ⟨?_, ?_, ?_⟩
  · intro env file filePath sk cache hk
    exact getGameMetadata_noKeys env file filePath sk cache hk
  · intro env file filePath sk cache m hk hc
    exact getGameMetadata_cacheHit env file filePath sk cache m hk hc
  · intro env file filePath sk cache hne
    by_cases hk : env.hasKeys = true
    · cases hc : cacheGet cache (fileKey filePath file) with
      | some m =>
        rw [getGameMetadata_cacheHit env file filePath sk cache m hk hc] at hne
        exact absurd rfl hne
      | none =>
        cases hs : structuralStep env file filePath sk with
        | mk mo sk2 =>
          cases mo with
          | some m =>
            obtain ⟨hsk, hprov⟩ := structuralStep_some_cases env file filePath sk sk2 m hs
            rw [getGameMetadata_structHit env file filePath sk sk2 cache m hk hc hs]
            exact ⟨hk, rfl, m, rfl, hsk, rfl, hprov⟩
          | none =>
            rw [getGameMetadata_structMiss env file filePath sk sk2 cache hk hc hs] at hne
            exact absurd rfl hne
    · have hkf : env.hasKeys = false := by
        revert hk; cases env.hasKeys <;> simp
      rw [getGameMetadata_noKeys env file filePath sk cache hkf] at hne
      exact absurd rfl hne

/-- Witness for C8 at a concrete keys-off environment. -/
theorem c8_cache_write_policy_witness :
    getGameMetadata plainEnv plainNspFile "/r/w" [] none =
      ⟨fallbackResolve plainNspFile.name, [], none⟩ :=
  c8_cache_write_policy.1 plainEnv plainNspFile "/r/w" [] none rfl

/-! ## Claim C9 — pre-classifier filtering -/

/-- C9 counterexample: a non-matching split-segment file ("game.nsp.01",
numeric two-character suffix 01 ≠ 0) is dropped silently: the whole run
leaves the state untouched and records nothing in the skip list, while the
claim requires an `UnsupportedType` skip record. -/
theorem c9_counterexample :
    processLocalFiles plainEnv [segment01File] ⟨[], []⟩ none = (⟨[], []⟩, none) ∧
    alLookup segment01File
      (processLocalFiles plainEnv [segment01File] ⟨[], []⟩ none).1.skipped = none :=
  ⟨rfl, rfl⟩

/-- C9 (amended): a non-directory file whose lower-cased name ends in a
numeric two-character suffix other than 00 is dropped with no state change
at all (no skip record); a file failing all extension checks (and not a
split segment) is recorded as `UnsupportedType` with the titles map and
cache untouched; a file whose resolution fails and that had no earlier
skip record ends with an `Unrecognized` or `MalformedFile` skip record and
contributes nothing to any title record. -/
theorem c9_pre_classifier_filtering :
    (∀ env st cache file n, file.isDir = false →
       goAtoi ⟨takeLast2 (strLower file.name).data⟩ = some n → ¬ n = 0 →
       processOneFile env (st, cache) file = (st, cache)) ∧
    (∀ env st cache file, file.isDir = false →
       goAtoi ⟨takeLast2 (strLower file.name).data⟩ = none →
       goHasSuffix (strLower file.name) "xci" = false →
       goHasSuffix (strLower file.name) "nsp" = false →
       goHasSuffix (strLower file.name) "nsz" = false →
       goHasSuffix (strLower file.name) "xcz" = false →
       processOneFile env (st, cache) file =
         ({ st with
             skipped := alInsert file
               ⟨REASON_UNSUPPORTED_TYPE, "file type is not supported"⟩ st.skipped },
           cache)) ∧
    (∀ env st cache file isSplit e,
       (getGameMetadata env file (goPathJoin file.baseFolder file.name)
           st.skipped cache).result = .error e →
       alLookup file st.skipped = none →
       (∃ s, alLookup file (processSupported env st cache file isSplit).1.skipped = some s ∧
          (s.ReasonCode = REASON_UNRECOGNISED ∨ s.ReasonCode = REASON_MALFORMED_FILE)) ∧
       (processSupported env st cache file isSplit).1.titles = st.titles) := by
  refine ⟨?_, ?_, ?_⟩
  · intro env st cache file n hdir hatoi hn
    simp only [processOneFile, hdir, Bool.false_eq_true, if_false, hatoi, hn, if_neg hn]
  · intro env st cache file hdir hatoi h1 h2 h3 h4
    simp only [processOneFile, hdir, Bool.false_eq_true, if_false, hatoi, h1, h2, h3, h4,
      Bool.not_false, Bool.true_and, if_true]
  · intro env st cache file isSplit e hres hnone
    rcases getGameMetadata_skipped_cases env file
        (goPathJoin file.baseFolder file.name) st.skipped cache with hsame | ⟨t, hmal⟩
    · refine ⟨⟨⟨REASON_UNRECOGNISED, "unable to determine title-Id / version - " ++ e⟩,
        ?_, Or.inl rfl⟩, ?_⟩
      · simp only [processSupported, hres, hsame, hnone]
        exact alLookup_alInsert_self _ _ _
      · simp only [processSupported, hres]
    · refine ⟨⟨⟨REASON_MALFORMED_FILE, t⟩, ?_, Or.inr rfl⟩, ?_⟩
      · simp only [processSupported, hres, hmal, alLookup_alInsert_self]
      · simp only [processSupported, hres]

/-- Witness for the amended C9: the non-matching split segment is dropped
with no state change. -/
theorem c9_pre_classifier_filtering_witness :
    processOneFile plainEnv (⟨[], []⟩, none) segment01File = (⟨[], []⟩, none) :=
  c9_pre_classifier_filtering.1 plainEnv ⟨[], []⟩ none segment01File 1 rfl rfl (by decide)

/-! ## Claim C6 — DLC resolution -/

/-- C6: when a DLC entry is already stored for the incoming title id, an
incoming strictly lower version is skipped as superseded (`OLD_UPDATE`
code with the old-DLC wording), an equal version is skipped as a duplicate
referencing the stored file, and a strictly higher version replaces the
stored entry with the skip list left completely untouched. -/
theorem c6_dlc_resolution :
    ∀ (st : ClassifyState) (file : FileMeta) (multi split : Bool)
      (md : ContentMetaAttributes) (r : SwitchGameFiles) (dlc : SwitchFileInfo),
      lookedUp st multi split md = r →
      goHasSuffix md.TitleId "800" = false →
      goHasSuffix md.TitleId "000" = false →
      alLookup md.TitleId r.Dlc = some dlc →
      ((md.Version < dlc.Metadata.Version →
          processContent file multi split md st =
            ⟨alInsert (idPfx md.TitleId) r st.titles,
             alInsert file oldDlcSkip st.skipped⟩) ∧
       (md.Version = dlc.Metadata.Version →
          processContent file multi split md st =
            ⟨alInsert (idPfx md.TitleId) r st.titles,
             alInsert file (dupDlcSkip dlc.ExtendedInfo.name) st.skipped⟩) ∧
       (dlc.Metadata.Version < md.Version →
          processContent file multi split md st =
            ⟨alInsert (idPfx md.TitleId) (dlcStore r file md) st.titles, st.skipped⟩)) :=
  fun st file multi split md r dlc hr h8 h0 hd =>
    ⟨fun hlt => pc_dlc_old file multi split md st r dlc hr h8 h0 hd hlt,
     fun heq => pc_dlc_dup file multi split md st r dlc hr h8 h0 hd heq,
     fun hgt => pc_dlc_replace file multi split md st r dlc hr h8 h0 hd hgt⟩

/-- A stored DLC entry used by the C6 witness. -/
def w6stored : SwitchFileInfo :=
  ⟨⟨"old dlc.nsp", "/r", 5, false⟩, ⟨"0100000000001001", 3, "DLC"⟩⟩

def w6record : SwitchGameFiles :=
  ⟨zeroSwitchFileInfo, false, [], [("0100000000001001", w6stored)], false, 0, false⟩

def w6state : ClassifyState := ⟨[("010000000000", w6record)], []⟩

def w6file : FileMeta := ⟨"new dlc.nsp", "/r", 6, false⟩

/-- Witness for C6: an incoming strictly lower version (2 < 3) is skipped
as superseded. -/
theorem c6_dlc_resolution_witness :
    processContent w6file false false ⟨"0100000000001001", 2, ""⟩ w6state =
      ⟨alInsert "010000000000" w6record w6state.titles,
       alInsert w6file oldDlcSkip w6state.skipped⟩ :=
  (c6_dlc_resolution w6state w6file false false ⟨"0100000000001001", 2, ""⟩ w6record w6stored
    rfl rfl rfl rfl).1 (by decide)

/-! ## Claim C10 — version-zero update edge case -/

/-- C10: an update entry at version 0 for a title whose record has no
stored update at version 0 and a non-negative latest-update tracker (0 for
a fresh record) is always skipped as `OLD_UPDATE` with the text "old
update file, newer update exist locally", because acceptance requires a
version strictly greater than the tracker, which starts at 0 — and the
file is nonetheless stored in the record's update map under key 0. -/
theorem c10_version_zero_update :
    ∀ (st : ClassifyState) (file : FileMeta) (multi split : Bool)
      (md : ContentMetaAttributes) (r : SwitchGameFiles),
      lookedUp st multi split md = r →
      goHasSuffix md.TitleId "800" = true →
      md.Version = 0 →
      alLookup 0 r.Updates = none →
      0 ≤ r.LatestUpdate →
      processContent file multi split md st =
        ⟨alInsert (idPfx md.TitleId) (updStore r file md) st.titles,
         alInsert file oldUpdSkip st.skipped⟩ ∧
      alLookup 0 (updStore r file md).Updates = some ⟨file, updMd md⟩ ∧
      alLookup file (alInsert file oldUpdSkip st.skipped) = some oldUpdSkip := by
  intro st file multi split md r hr h8 hv hnone hlat
  have hnone' : alLookup md.Version r.Updates = none := by rw [hv]; exact hnone
  have hle : ¬ r.LatestUpdate < md.Version := by rw [hv]; exact not_lt.mpr hlat
  refine ⟨pc_upd_reject file multi split md st r hr h8 hnone' hle, ?_, ?_⟩
  · show alLookup 0 (alInsert md.Version ⟨file, updMd md⟩ r.Updates) = some ⟨file, updMd md⟩
    rw [hv]
    exact alLookup_alInsert_self _ _ _
  · exact alLookup_alInsert_self _ _ _

/-- Witness for C10: the very first update seen for a fresh title, at
version 0, is both stored under key 0 and skipped as superseded. -/
theorem c10_version_zero_update_witness :
    processContent updV0File false false ⟨"0100000000000800", 0, ""⟩ ⟨[], []⟩ =
      ⟨alInsert "010000000000"
         (updStore (freshTitle false false) updV0File ⟨"0100000000000800", 0, ""⟩) [],
       alInsert updV0File oldUpdSkip []⟩ ∧
    alLookup 0
        (updStore (freshTitle false false) updV0File ⟨"0100000000000800", 0, ""⟩).Updates =
      some ⟨updV0File, updMd ⟨"0100000000000800", 0, ""⟩⟩ ∧
    alLookup updV0File (alInsert updV0File oldUpdSkip []) = some oldUpdSkip :=
  c10_version_zero_update ⟨[], []⟩ updV0File false false ⟨"0100000000000800", 0, ""⟩
    (freshTitle false false) rfl rfl rfl rfl (by decide)

/-! ## Claim C4 — update resolution -/

/-- The latest-update tracker of the record at prefix `q` (0 when the
record does not exist, matching the fresh record's initialisation). -/
def latestOf (st : ClassifyState) (q : String) : Int :=
  match alLookup q st.titles with
  | some r => r.LatestUpdate
  | none => 0

theorem lookedUp_latest (st : ClassifyState) (multi split : Bool)
    (md : ContentMetaAttributes) :
    (lookedUp st multi split md).LatestUpdate = latestOf st (idPfx md.TitleId) := by
  unfold lookedUp latestOf
  cases alLookup (idPfx md.TitleId) st.titles <;> rfl

theorem latestOf_alInsert (T : List (String × SwitchGameFiles))
    (S : List (FileMeta × SkippedFile)) (p q : String) (r : SwitchGameFiles) :
    latestOf ⟨alInsert p r T, S⟩ q = if p = q then r.LatestUpdate else latestOf ⟨T, S⟩ q := by
  unfold latestOf
  rw [alLookup_alInsert]
  by_cases h : p = q <;> simp [h]

/-- One classifier step never decreases any record's latest-update
tracker. -/
theorem latestOf_step_le (file : FileMeta) (multi split : Bool)
    (md : ContentMetaAttributes) (st : ClassifyState) (q : String) :
    latestOf st q ≤ latestOf (processContent file multi split md st) q := by
  have hlat := lookedUp_latest st multi split md
  have key : ∀ (r' : SwitchGameFiles) (S : List (FileMeta × SkippedFile)),
      (lookedUp st multi split md).LatestUpdate ≤ r'.LatestUpdate →
      latestOf st q ≤ latestOf ⟨alInsert (idPfx md.TitleId) r' st.titles, S⟩ q := by
    intro r' S hle
    rw [latestOf_alInsert]
    by_cases hq : idPfx md.TitleId = q
    · rw [if_pos hq]
      subst hq
      rw [← hlat]
      exact hle
    · rw [if_neg hq]
      exact le_refl _
  rcases processContent_cases file multi split md st (lookedUp st multi split md) rfl with
    ⟨h8, hcase⟩ | ⟨h8, h0, hcase⟩ | ⟨h8, h0, hcase⟩
  · rcases hcase with ⟨u, hu, hout⟩ | ⟨hu, hgt, hout⟩ | ⟨hu, hgt, hout⟩
    · rw [hout]; exact key _ _ (le_refl _)
    · rw [hout]; exact key _ _ (le_of_lt hgt)
    · rw [hout]; exact key _ _ (le_refl _)
  · rcases hcase with ⟨hbe, hout⟩ | ⟨hbe, hout⟩ <;> rw [hout] <;> exact key _ _ (le_refl _)
  · rcases hcase with ⟨dlc, hd, hv, hout⟩ | ⟨dlc, hd, hv, hout⟩ | ⟨dlc, hd, hv, hout⟩ |
      ⟨hd, hout⟩ <;> rw [hout] <;> exact key _ _ (le_refl _)

/-- Folded monotonicity over any event sequence. -/
theorem latestOf_run_le (evs : List Event) (st : ClassifyState) (q : String) :
    latestOf st q ≤ latestOf (runEvents evs st) q := by
  induction evs generalizing st with
  | nil => exact le_refl _
  | cons a evs ih =>
    exact le_trans (latestOf_step_le a.file a.multi a.split a.md st q)
      (ih (processContent a.file a.multi a.split a.md st))

/-- C4: update resolution.  Part 1: an update at an already-present exact
version is skipped as a duplicate referencing the stored file.  Part 2:
a strictly greater version than the tracker is installed, the tracker is
set to it, and the previously-held latest-update file (when the tracker
was non-zero) is moved to the skip list as superseded.  Part 3: a version
not strictly greater is itself skipped as superseded (while still being
stored under its own key).  Part 4: the tracker is monotonically
non-decreasing over every event sequence.  Part 5: for update files at
versions 3, 1, 5 in that input order the final tracker is 5, the
version-5 file is installed, and the version-3 and version-1 files are
both skipped as superseded. -/
theorem c4_update_resolution :
    (∀ (st : ClassifyState) (file : FileMeta) (multi split : Bool)
       (md : ContentMetaAttributes) (r : SwitchGameFiles) (u : SwitchFileInfo),
       lookedUp st multi split md = r →
       goHasSuffix md.TitleId "800" = true →
       alLookup md.Version r.Updates = some u →
       processContent file multi split md st =
         ⟨alInsert (idPfx md.TitleId) r st.titles,
          alInsert file (dupUpdSkip u.ExtendedInfo.name) st.skipped⟩) ∧
    (∀ (st : ClassifyState) (file : FileMeta) (multi split : Bool)
       (md : ContentMetaAttributes) (r : SwitchGameFiles),
       lookedUp st multi split md = r →
       goHasSuffix md.TitleId "800" = true →
       alLookup md.Version r.Updates = none →
       r.LatestUpdate < md.Version →
       processContent file multi split md st =
         ⟨alInsert (idPfx md.TitleId) (updAccept r file md) st.titles,
          if r.LatestUpdate ≠ 0 then alInsert (prevLatestFile r) oldUpdSkip st.skipped
          else st.skipped⟩ ∧
       (updAccept r file md).LatestUpdate = md.Version) ∧
    (∀ (st : ClassifyState) (file : FileMeta) (multi split : Bool)
       (md : ContentMetaAttributes) (r : SwitchGameFiles),
       lookedUp st multi split md = r →
       goHasSuffix md.TitleId "800" = true →
       alLookup md.Version r.Updates = none →
       ¬ r.LatestUpdate < md.Version →
       processContent file multi split md st =
         ⟨alInsert (idPfx md.TitleId) (updStore r file md) st.titles,
          alInsert file oldUpdSkip st.skipped⟩) ∧
    (∀ (evs : List Event) (st : ClassifyState) (q : String),
       latestOf st q ≤ latestOf (runEvents evs st) q) ∧
    (latestOf (processLocalFiles plainEnv [updV3File, updV1File, updV5File] ⟨[], []⟩ none).1
        "010000000000" = 5 ∧
     alLookup updV3File
        (processLocalFiles plainEnv [updV3File, updV1File, updV5File] ⟨[], []⟩ none).1.skipped =
       some oldUpdSkip ∧
     alLookup updV1File
        (processLocalFiles plainEnv [updV3File, updV1File, updV5File] ⟨[], []⟩ none).1.skipped =
       some oldUpdSkip ∧
     (∃ r, alLookup "010000000000"
         (processLocalFiles plainEnv [updV3File, updV1File, updV5File] ⟨[], []⟩ none).1.titles =
           some r ∧
       (∃ i, alLookup 5 r.Updates = some i ∧ i.ExtendedInfo = updV5File) ∧
       alLookup updV5File
         (processLocalFiles plainEnv [updV3File, updV1File, updV5File] ⟨[], []⟩ none).1.skipped =
         none)) := by
  refine ⟨?_, ?_, ?_, latestOf_run_le, ?_⟩
  · intro st file multi split md r u hr h8 hu
    exact pc_upd_dup file multi split md st r u hr h8 hu
  · intro st file multi split md r hr h8 hn hgt
    exact ⟨pc_upd_accept file multi split md st r hr h8 hn hgt, rfl⟩
  · intro st file multi split md r hr h8 hn hle
    exact pc_upd_reject file multi split md st r hr h8 hn hle
  · refine ⟨rfl, rfl, rfl, ?_⟩
    exact ⟨_, rfl, ⟨_, rfl, rfl⟩, rfl⟩

/-- Witness for C4: the duplicate-version part applied at a concrete state
holding an update at version 7. -/
theorem c4_update_resolution_witness :
    processContent ⟨"dup.nsp", "/r", 2, false⟩ false false ⟨"0100000000000800", 7, ""⟩
        ⟨[("010000000000",
           ⟨zeroSwitchFileInfo, false,
            [(7, ⟨⟨"first.nsp", "/r", 1, false⟩, ⟨"0100000000000800", 7, "Update"⟩⟩)],
            [], false, 7, false⟩)], []⟩ =
      ⟨alInsert "010000000000"
         ⟨zeroSwitchFileInfo, false,
          [(7, ⟨⟨"first.nsp", "/r", 1, false⟩, ⟨"0100000000000800", 7, "Update"⟩⟩)],
          [], false, 7, false⟩
         [("010000000000",
           ⟨zeroSwitchFileInfo, false,
            [(7, ⟨⟨"first.nsp", "/r", 1, false⟩, ⟨"0100000000000800", 7, "Update"⟩⟩)],
            [], false, 7, false⟩)],
       alInsert ⟨"dup.nsp", "/r", 2, false⟩ (dupUpdSkip "first.nsp") []⟩ :=
  c4_update_resolution.1
    ⟨[("010000000000",
       ⟨zeroSwitchFileInfo, false,
        [(7, ⟨⟨"first.nsp", "/r", 1, false⟩, ⟨"0100000000000800", 7, "Update"⟩⟩)],
        [], false, 7, false⟩)], []⟩
    ⟨"dup.nsp", "/r", 2, false⟩ false false ⟨"0100000000000800", 7, ""⟩
    ⟨zeroSwitchFileInfo, false,
     [(7, ⟨⟨"first.nsp", "/r", 1, false⟩, ⟨"0100000000000800", 7, "Update"⟩⟩)],
     [], false, 7, false⟩
    ⟨⟨"first.nsp", "/r", 1, false⟩, ⟨"0100000000000800", 7, "Update"⟩⟩
    rfl rfl rfl

/-! ## Claim C1 — partition of classified files

Predicates describing where a file can end after classification: in the
skip map, referenced from some record slot, or displaced from a DLC slot
by a strictly higher version (which the code overwrites silently). -/

/-- The file has an entry in the skip map. -/
def fileSkipped (st : ClassifyState) (f : FileMeta) : Prop :=
  ∃ s, alLookup f st.skipped = some s

/-- The file is held by some slot of some title record: the Base slot, an
update-version entry, or a DLC entry. -/
def fileReferenced (st : ClassifyState) (f : FileMeta) : Prop :=
  ∃ q r, alLookup q st.titles = some r ∧
    ((r.BaseExist = true ∧ r.File.ExtendedInfo = f) ∨
     (∃ v i, alLookup v r.Updates = some i ∧ i.ExtendedInfo = f) ∨
     (∃ tid i, alLookup tid r.Dlc = some i ∧ i.ExtendedInfo = f))

/-- The slot the classification of this content entry itself installed
still holds the event's file (strengthened over `fileReferenced` by
remembering the slot's coordinates and, for DLC, the stored version). -/
def eventInstalled (st : ClassifyState) (e : Event) : Prop :=
  ∃ r, alLookup (idPfx e.md.TitleId) st.titles = some r ∧
    ((r.BaseExist = true ∧ r.File.ExtendedInfo = e.file) ∨
     (∃ i, alLookup e.md.Version r.Updates = some i ∧ i.ExtendedInfo = e.file) ∨
     (∃ i, alLookup e.md.TitleId r.Dlc = some i ∧ i.ExtendedInfo = e.file ∧
        i.Metadata.Version = e.md.Version))

/-- The DLC slot this content entry targets holds a strictly higher
version: the entry's file may have been silently overwritten. -/
def eventDisplaced (st : ClassifyState) (e : Event) : Prop :=
  ∃ r i, alLookup (idPfx e.md.TitleId) st.titles = some r ∧
    alLookup e.md.TitleId r.Dlc = some i ∧ e.md.Version < i.Metadata.Version

theorem lookedUp_of_lookup (st : ClassifyState) (multi split : Bool)
    (md : ContentMetaAttributes) (r : SwitchGameFiles)
    (h : alLookup (idPfx md.TitleId) st.titles = some r) :
    lookedUp st multi split md = r := by
  unfold lookedUp
  rw [h]
  rfl

theorem eventInstalled_referenced (st : ClassifyState) (e : Event)
    (h : eventInstalled st e) : fileReferenced st e.file := by
  obtain ⟨r, hr, hslot⟩ := h
  refine ⟨idPfx e.md.TitleId, r, hr, ?_⟩
  rcases hslot with h1 | ⟨i, hi, hext⟩ | ⟨i, hi, hext, _⟩
  · exact Or.inl h1
  · exact Or.inr (Or.inl ⟨e.md.Version, i, hi, hext⟩)
  · exact Or.inr (Or.inr ⟨e.md.TitleId, i, hi, hext⟩)

theorem step_skipped_pres (ev : Event) (st : ClassifyState) (f : FileMeta)
    (h : fileSkipped st f) :
    fileSkipped (processContent ev.file ev.multi ev.split ev.md st) f := by
  obtain ⟨s, hs⟩ := h
  rcases processContent_cases ev.file ev.multi ev.split ev.md st
      (lookedUp st ev.multi ev.split ev.md) rfl with
    ⟨h8, hcase⟩ | ⟨h8, h0, hcase⟩ | ⟨h8, h0, hcase⟩
  · rcases hcase with ⟨u, hu, hout⟩ | ⟨hu, hgt, hout⟩ | ⟨hu, hgt, hout⟩ <;> rw [hout]
    · exact alLookup_alInsert_isSome f ev.file _ st.skipped s hs
    · by_cases hz : (lookedUp st ev.multi ev.split ev.md).LatestUpdate ≠ 0
      · rw [if_pos hz]
        exact alLookup_alInsert_isSome f _ _ st.skipped s hs
      · rw [if_neg hz]
        exact ⟨s, hs⟩
    · exact alLookup_alInsert_isSome f ev.file _ st.skipped s hs
  · rcases hcase with ⟨hbe, hout⟩ | ⟨hbe, hout⟩ <;> rw [hout]
    · exact alLookup_alInsert_isSome f ev.file _ st.skipped s hs
    · exact ⟨s, hs⟩
  · rcases hcase with ⟨dlc, hd, hv, hout⟩ | ⟨dlc, hd, hv, hout⟩ | ⟨dlc, hd, hv, hout⟩ |
      ⟨hd, hout⟩ <;> rw [hout]
    · exact alLookup_alInsert_isSome f ev.file _ st.skipped s hs
    · exact alLookup_alInsert_isSome f ev.file _ st.skipped s hs
    · exact ⟨s, hs⟩
    · exact ⟨s, hs⟩

theorem step_installed_pres (ev : Event) (st : ClassifyState) (e : Event)
    (h : eventInstalled st e) :
    eventInstalled (processContent ev.file ev.multi ev.split ev.md st) e ∨
    eventDisplaced (processContent ev.file ev.multi ev.split ev.md st) e := by
  obtain ⟨r, hrl, hslot⟩ := h
  rcases processContent_cases ev.file ev.multi ev.split ev.md st
      (lookedUp st ev.multi ev.split ev.md) rfl with
    ⟨h8, hcase⟩ | ⟨h8, h0, hcase⟩ | ⟨h8, h0, hcase⟩
  all_goals by_cases hpq : idPfx ev.md.TitleId = idPfx e.md.TitleId
  -- in every branch with hpq false the step leaves the record untouched
  case neg =>
    rcases hcase with ⟨u, hu, hout⟩ | ⟨hu, hgt, hout⟩ | ⟨hu, hgt, hout⟩ <;> rw [hout] <;>
      exact Or.inl ⟨r, by rw [alLookup_alInsert_ne _ _ _ _ hpq]; exact hrl, hslot⟩
  case neg =>
    rcases hcase with ⟨hbe, hout⟩ | ⟨hbe, hout⟩ <;> rw [hout] <;>
      exact Or.inl ⟨r, by rw [alLookup_alInsert_ne _ _ _ _ hpq]; exact hrl, hslot⟩
  case neg =>
    rcases hcase with ⟨dlc, hd, hv, hout⟩ | ⟨dlc, hd, hv, hout⟩ | ⟨dlc, hd, hv, hout⟩ |
      ⟨hd, hout⟩ <;> rw [hout] <;>
      exact Or.inl ⟨r, by rw [alLookup_alInsert_ne _ _ _ _ hpq]; exact hrl, hslot⟩
  -- now the branches where the step touches the record of e's prefix
  case pos =>
    -- update branch
    have hre : lookedUp st ev.multi ev.split ev.md = r :=
      lookedUp_of_lookup st ev.multi ev.split ev.md r (by rw [hpq]; exact hrl)
    rw [hre] at hcase
    rcases hcase with ⟨u, hu, hout⟩ | ⟨hu, hgt, hout⟩ | ⟨hu, hgt, hout⟩
    · rw [hout]
      exact Or.inl ⟨r, by rw [hpq, alLookup_alInsert_self], hslot⟩
    · rw [hout]
      refine Or.inl ⟨updAccept r ev.file ev.md, by rw [hpq, alLookup_alInsert_self], ?_⟩
      rcases hslot with h1 | ⟨i, hi, hext⟩ | h3
      · exact Or.inl h1
      · have hne : ev.md.Version ≠ e.md.Version := by
          intro hEq
          rw [← hEq] at hi
          rw [hu] at hi
          exact Option.noConfusion hi
        exact Or.inr (Or.inl ⟨i, by
          show alLookup e.md.Version (alInsert ev.md.Version _ r.Updates) = some i
          rw [alLookup_alInsert_ne _ _ _ _ hne]; exact hi, hext⟩)
      · exact Or.inr (Or.inr h3)
    · rw [hout]
      refine Or.inl ⟨updStore r ev.file ev.md, by rw [hpq, alLookup_alInsert_self], ?_⟩
      rcases hslot with h1 | ⟨i, hi, hext⟩ | h3
      · exact Or.inl h1
      · have hne : ev.md.Version ≠ e.md.Version := by
          intro hEq
          rw [← hEq] at hi
          rw [hu] at hi
          exact Option.noConfusion hi
        exact Or.inr (Or.inl ⟨i, by
          show alLookup e.md.Version (alInsert ev.md.Version _ r.Updates) = some i
          rw [alLookup_alInsert_ne _ _ _ _ hne]; exact hi, hext⟩)
      · exact Or.inr (Or.inr h3)
  case pos =>
    -- base branch
    have hre : lookedUp st ev.multi ev.split ev.md = r :=
      lookedUp_of_lookup st ev.multi ev.split ev.md r (by rw [hpq]; exact hrl)
    rw [hre] at hcase
    rcases hcase with ⟨hbe, hout⟩ | ⟨hbe, hout⟩
    · rw [hout]
      exact Or.inl ⟨r, by rw [hpq, alLookup_alInsert_self], hslot⟩
    · rw [hout]
      refine Or.inl ⟨baseStore r ev.file ev.md, by rw [hpq, alLookup_alInsert_self], ?_⟩
      rcases hslot with ⟨h1, _⟩ | ⟨i, hi, hext⟩ | h3
      · rw [hbe] at h1
        exact absurd h1 (by simp)
      · exact Or.inr (Or.inl ⟨i, hi, hext⟩)
      · exact Or.inr (Or.inr h3)
  case pos =>
    -- DLC branch
    have hre : lookedUp st ev.multi ev.split ev.md = r :=
      lookedUp_of_lookup st ev.multi ev.split ev.md r (by rw [hpq]; exact hrl)
    rw [hre] at hcase
    rcases hcase with ⟨dlc, hd, hv, hout⟩ | ⟨dlc, hd, hv, hout⟩ | ⟨dlc, hd, hv, hout⟩ |
      ⟨hd, hout⟩
    · rw [hout]
      exact Or.inl ⟨r, by rw [hpq, alLookup_alInsert_self], hslot⟩
    · rw [hout]
      exact Or.inl ⟨r, by rw [hpq, alLookup_alInsert_self], hslot⟩
    · -- replacement with a strictly higher version
      rw [hout]
      rcases hslot with h1 | h2 | ⟨i, hi, hext, hver⟩
      · exact Or.inl ⟨dlcStore r ev.file ev.md,
          by rw [hpq, alLookup_alInsert_self], Or.inl h1⟩
      · exact Or.inl ⟨dlcStore r ev.file ev.md,
          by rw [hpq, alLookup_alInsert_self], Or.inr (Or.inl h2)⟩
      · by_cases htid : ev.md.TitleId = e.md.TitleId
        · -- e's own DLC slot is overwritten: it is now displaced
          right
          refine ⟨dlcStore r ev.file ev.md, ⟨ev.file, dlcMd ev.md⟩,
            by rw [hpq, alLookup_alInsert_self], ?_, ?_⟩
          · show alLookup e.md.TitleId (alInsert ev.md.TitleId _ r.Dlc) = _
            rw [htid, alLookup_alInsert_self]
          · have : dlc = i := by
              rw [htid] at hd
              rw [hd] at hi
              exact Option.some.inj hi
            rw [← hver, ← this]
            exact hv
        · exact Or.inl ⟨dlcStore r ev.file ev.md,
            by rw [hpq, alLookup_alInsert_self],
            Or.inr (Or.inr ⟨i, by
              show alLookup e.md.TitleId (alInsert ev.md.TitleId _ r.Dlc) = some i
              rw [alLookup_alInsert_ne _ _ _ _ htid]; exact hi, hext, hver⟩)⟩
    · rw [hout]
      rcases hslot with h1 | h2 | ⟨i, hi, hext, hver⟩
      · exact Or.inl ⟨dlcStore r ev.file ev.md,
          by rw [hpq, alLookup_alInsert_self], Or.inl h1⟩
      · exact Or.inl ⟨dlcStore r ev.file ev.md,
          by rw [hpq, alLookup_alInsert_self], Or.inr (Or.inl h2)⟩
      · by_cases htid : ev.md.TitleId = e.md.TitleId
        · rw [htid] at hd
          rw [hd] at hi
          exact absurd hi (by simp)
        · exact Or.inl ⟨dlcStore r ev.file ev.md,
            by rw [hpq, alLookup_alInsert_self],
            Or.inr (Or.inr ⟨i, by
              show alLookup e.md.TitleId (alInsert ev.md.TitleId _ r.Dlc) = some i
              rw [alLookup_alInsert_ne _ _ _ _ htid]; exact hi, hext, hver⟩)⟩

theorem step_displaced_pres (ev : Event) (st : ClassifyState) (e : Event)
    (h : eventDisplaced st e) :
    eventDisplaced (processContent ev.file ev.multi ev.split ev.md st) e := by
  obtain ⟨r, i, hrl, hi, hv⟩ := h
  rcases processContent_cases ev.file ev.multi ev.split ev.md st
      (lookedUp st ev.multi ev.split ev.md) rfl with
    ⟨h8, hcase⟩ | ⟨h8, h0, hcase⟩ | ⟨h8, h0, hcase⟩
  all_goals by_cases hpq : idPfx ev.md.TitleId = idPfx e.md.TitleId
  case neg =>
    rcases hcase with ⟨u, hu, hout⟩ | ⟨hu, hgt, hout⟩ | ⟨hu, hgt, hout⟩ <;> rw [hout] <;>
      exact ⟨r, i, by rw [alLookup_alInsert_ne _ _ _ _ hpq]; exact hrl, hi, hv⟩
  case neg =>
    rcases hcase with ⟨hbe, hout⟩ | ⟨hbe, hout⟩ <;> rw [hout] <;>
      exact ⟨r, i, by rw [alLookup_alInsert_ne _ _ _ _ hpq]; exact hrl, hi, hv⟩
  case neg =>
    rcases hcase with ⟨dlc, hd, hv', hout⟩ | ⟨dlc, hd, hv', hout⟩ | ⟨dlc, hd, hv', hout⟩ |
      ⟨hd, hout⟩ <;> rw [hout] <;>
      exact ⟨r, i, by rw [alLookup_alInsert_ne _ _ _ _ hpq]; exact hrl, hi, hv⟩
  case pos =>
    have hre : lookedUp st ev.multi ev.split ev.md = r :=
      lookedUp_of_lookup st ev.multi ev.split ev.md r (by rw [hpq]; exact hrl)
    rw [hre] at hcase
    rcases hcase with ⟨u, hu, hout⟩ | ⟨hu, hgt, hout⟩ | ⟨hu, hgt, hout⟩ <;> rw [hout]
    · exact ⟨r, i, by rw [hpq, alLookup_alInsert_self], hi, hv⟩
    · exact ⟨updAccept r ev.file ev.md, i, by rw [hpq, alLookup_alInsert_self], hi, hv⟩
    · exact ⟨updStore r ev.file ev.md, i, by rw [hpq, alLookup_alInsert_self], hi, hv⟩
  case pos =>
    have hre : lookedUp st ev.multi ev.split ev.md = r :=
      lookedUp_of_lookup st ev.multi ev.split ev.md r (by rw [hpq]; exact hrl)
    rw [hre] at hcase
    rcases hcase with ⟨hbe, hout⟩ | ⟨hbe, hout⟩ <;> rw [hout]
    · exact ⟨r, i, by rw [hpq, alLookup_alInsert_self], hi, hv⟩
    · exact ⟨baseStore r ev.file ev.md, i, by rw [hpq, alLookup_alInsert_self], hi, hv⟩
  case pos =>
    have hre : lookedUp st ev.multi ev.split ev.md = r :=
      lookedUp_of_lookup st ev.multi ev.split ev.md r (by rw [hpq]; exact hrl)
    rw [hre] at hcase
    rcases hcase with ⟨dlc, hd, hv', hout⟩ | ⟨dlc, hd, hv', hout⟩ | ⟨dlc, hd, hv', hout⟩ |
      ⟨hd, hout⟩ <;> rw [hout]
    · exact ⟨r, i, by rw [hpq, alLookup_alInsert_self], hi, hv⟩
    · exact ⟨r, i, by rw [hpq, alLookup_alInsert_self], hi, hv⟩
    · by_cases htid : ev.md.TitleId = e.md.TitleId
      · refine ⟨dlcStore r ev.file ev.md, ⟨ev.file, dlcMd ev.md⟩,
          by rw [hpq, alLookup_alInsert_self], ?_, ?_⟩
        · show alLookup e.md.TitleId (alInsert ev.md.TitleId _ r.Dlc) = _
          rw [htid, alLookup_alInsert_self]
        · have hdi : dlc = i := by
            rw [htid] at hd
            rw [hd] at hi
            exact Option.some.inj hi
          calc e.md.Version < i.Metadata.Version := hv
            _ < ev.md.Version := hdi ▸ hv'
      · exact ⟨dlcStore r ev.file ev.md, i, by rw [hpq, alLookup_alInsert_self], by
          show alLookup e.md.TitleId (alInsert ev.md.TitleId _ r.Dlc) = some i
          rw [alLookup_alInsert_ne _ _ _ _ htid]; exact hi, hv⟩
    · by_cases htid : ev.md.TitleId = e.md.TitleId
      · rw [htid] at hd
        rw [hd] at hi
        exact absurd hi (by simp)
      · exact ⟨dlcStore r ev.file ev.md, i, by rw [hpq, alLookup_alInsert_self], by
          show alLookup e.md.TitleId (alInsert ev.md.TitleId _ r.Dlc) = some i
          rw [alLookup_alInsert_ne _ _ _ _ htid]; exact hi, hv⟩

/-- Every branch of the classifier either records a skip for the event's
file or installs it into the slot its content entry targets. -/
theorem step_new (ev : Event) (st : ClassifyState) :
    fileSkipped (processContent ev.file ev.multi ev.split ev.md st) ev.file ∨
    eventInstalled (processContent ev.file ev.multi ev.split ev.md st) ev := by
  rcases processContent_cases ev.file ev.multi ev.split ev.md st
      (lookedUp st ev.multi ev.split ev.md) rfl with
    ⟨h8, hcase⟩ | ⟨h8, h0, hcase⟩ | ⟨h8, h0, hcase⟩
  · rcases hcase with ⟨u, hu, hout⟩ | ⟨hu, hgt, hout⟩ | ⟨hu, hgt, hout⟩ <;> rw [hout]
    · exact Or.inl ⟨_, alLookup_alInsert_self _ _ _⟩
    · refine Or.inr ⟨updAccept (lookedUp st ev.multi ev.split ev.md) ev.file ev.md,
        alLookup_alInsert_self _ _ _, Or.inr (Or.inl ⟨⟨ev.file, updMd ev.md⟩, ?_, rfl⟩)⟩
      show alLookup ev.md.Version (alInsert ev.md.Version _ _) = _
      exact alLookup_alInsert_self _ _ _
    · exact Or.inl ⟨_, alLookup_alInsert_self _ _ _⟩
  · rcases hcase with ⟨hbe, hout⟩ | ⟨hbe, hout⟩ <;> rw [hout]
    · exact Or.inl ⟨_, alLookup_alInsert_self _ _ _⟩
    · exact Or.inr ⟨baseStore (lookedUp st ev.multi ev.split ev.md) ev.file ev.md,
        alLookup_alInsert_self _ _ _, Or.inl ⟨rfl, rfl⟩⟩
  · rcases hcase with ⟨dlc, hd, hv, hout⟩ | ⟨dlc, hd, hv, hout⟩ | ⟨dlc, hd, hv, hout⟩ |
      ⟨hd, hout⟩ <;> rw [hout]
    · exact Or.inl ⟨_, alLookup_alInsert_self _ _ _⟩
    · exact Or.inl ⟨_, alLookup_alInsert_self _ _ _⟩
    · refine Or.inr ⟨dlcStore (lookedUp st ev.multi ev.split ev.md) ev.file ev.md,
        alLookup_alInsert_self _ _ _, Or.inr (Or.inr ⟨⟨ev.file, dlcMd ev.md⟩, ?_, rfl, rfl⟩)⟩
      show alLookup ev.md.TitleId (alInsert ev.md.TitleId _ _) = _
      exact alLookup_alInsert_self _ _ _
    · refine Or.inr ⟨dlcStore (lookedUp st ev.multi ev.split ev.md) ev.file ev.md,
        alLookup_alInsert_self _ _ _, Or.inr (Or.inr ⟨⟨ev.file, dlcMd ev.md⟩, ?_, rfl, rfl⟩)⟩
      show alLookup ev.md.TitleId (alInsert ev.md.TitleId _ _) = _
      exact alLookup_alInsert_self _ _ _

/-- The per-event trichotomy is preserved by one further classifier
step. -/
theorem step_covered_pres (ev : Event) (st : ClassifyState) (e : Event)
    (h : fileSkipped st e.file ∨ eventInstalled st e ∨ eventDisplaced st e) :
    fileSkipped (processContent ev.file ev.multi ev.split ev.md st) e.file ∨
    eventInstalled (processContent ev.file ev.multi ev.split ev.md st) e ∨
    eventDisplaced (processContent ev.file ev.multi ev.split ev.md st) e := by
  rcases h with h | h | h
  · exact Or.inl (step_skipped_pres ev st e.file h)
  · rcases step_installed_pres ev st e h with h' | h'
    · exact Or.inr (Or.inl h')
    · exact Or.inr (Or.inr h')
  · exact Or.inr (Or.inr (step_displaced_pres ev st e h))

theorem run_covered_pres (evs : List Event) (st : ClassifyState) (e : Event)
    (h : fileSkipped st e.file ∨ eventInstalled st e ∨ eventDisplaced st e) :
    fileSkipped (runEvents evs st) e.file ∨ eventInstalled (runEvents evs st) e ∨
    eventDisplaced (runEvents evs st) e := by
  induction evs generalizing st with
  | nil => exact h
  | cons a evs ih =>
    exact ih (processContent a.file a.multi a.split a.md st) (step_covered_pres a st e h)

theorem run_covered (evs : List Event) (st : ClassifyState) (e : Event) (he : e ∈ evs) :
    fileSkipped (runEvents evs st) e.file ∨ eventInstalled (runEvents evs st) e ∨
    eventDisplaced (runEvents evs st) e := by
  induction evs generalizing st with
  | nil => cases he
  | cons a evs ih =>
    rcases List.mem_cons.mp he with rfl | hmem
    · refine run_covered_pres evs (processContent e.file e.multi e.split e.md st) e ?_
      rcases step_new e st with h | h
      · exact Or.inl h
      · exact Or.inr (Or.inl h)
    · exact ih (processContent a.file a.multi a.split a.md st) hmem

/-- C1 counterexample: a single update file at version 0 ends in BOTH
states at once — it is stored in its record's update map under key 0 and
it is in the skip list as superseded — refuting "never both".  (The run
goes through `processLocalFiles` with the fallback name parser resolving
the file.) -/
theorem c1_counterexample :
    (∃ r, alLookup "010000000000"
        (processLocalFiles plainEnv [updV0File] ⟨[], []⟩ none).1.titles = some r ∧
      (∃ i, alLookup 0 r.Updates = some i ∧ i.ExtendedInfo = updV0File)) ∧
    alLookup updV0File (processLocalFiles plainEnv [updV0File] ⟨[], []⟩ none).1.skipped =
      some oldUpdSkip :=
  ⟨⟨_, rfl, _, rfl, rfl⟩, rfl⟩

/-- C1 (amended): for every event sequence fed to the classifier (one
event per content entry of each resolved file), every event's file ends,
after the run from the empty state, in at least one of: the skip list, a
TitleRecord slot, or displaced — its DLC slot now holds a strictly higher
version (the silent-overwrite path).  Files can also end in both of the
first two states (see the version-0 update), so the original "exactly
one" partition does not hold. -/
theorem c1_partition_amended :
    ∀ (evs : List Event) (e : Event), e ∈ evs →
      fileSkipped (runEvents evs ⟨[], []⟩) e.file ∨
      fileReferenced (runEvents evs ⟨[], []⟩) e.file ∨
      eventDisplaced (runEvents evs ⟨[], []⟩) e := by
  intro evs e he
  rcases run_covered evs ⟨[], []⟩ e he with h | h | h
  · exact Or.inl h
  · exact Or.inr (Or.inl (eventInstalled_referenced _ e h))
  · exact Or.inr (Or.inr h)

/-- Witness for the amended C1 at a one-event run. -/
theorem c1_partition_amended_witness :
    fileSkipped (runEvents [⟨updV0File, false, false, ⟨"0100000000000800", 0, ""⟩⟩] ⟨[], []⟩)
        updV0File ∨
    fileReferenced (runEvents [⟨updV0File, false, false, ⟨"0100000000000800", 0, ""⟩⟩] ⟨[], []⟩)
        updV0File ∨
    eventDisplaced (runEvents [⟨updV0File, false, false, ⟨"0100000000000800", 0, ""⟩⟩] ⟨[], []⟩)
        ⟨updV0File, false, false, ⟨"0100000000000800", 0, ""⟩⟩ :=
  c1_partition_amended [⟨updV0File, false, false, ⟨"0100000000000800", 0, ""⟩⟩]
    ⟨updV0File, false, false, ⟨"0100000000000800", 0, ""⟩⟩ (List.mem_singleton.mpr rfl)

/-! ## Claim C5 — base resolution

Run-long invariants needed to track the Base slot: update slots only ever
hold files of update-suffix events (`updSlotsIn`), a non-zero
latest-update tracker always has its slot occupied (`latestSlotOk`), and
a record's Base flag stays unset until the first base event for its
prefix. -/

/-- Is the event a Base-suffix content entry for prefix `p`? -/
def isBaseEvB (p : String) (e : Event) : Bool :=
  decide (idPfx e.md.TitleId = p) && goHasSuffix e.md.TitleId "000"

/-- Every file held by an update slot of any record satisfies `U`. -/
def updSlotsIn (U : FileMeta → Prop) (st : ClassifyState) : Prop :=
  ∀ q r v i, alLookup q st.titles = some r → alLookup v r.Updates = some i →
    U i.ExtendedInfo

/-- A non-zero latest-update tracker has an occupied slot. -/
def latestSlotOk (st : ClassifyState) : Prop :=
  ∀ q r, alLookup q st.titles = some r → r.LatestUpdate ≠ 0 →
    ∃ i, alLookup r.LatestUpdate r.Updates = some i

/-- No record at prefix `p` has its Base flag set. -/
def noBaseAt (st : ClassifyState) (p : String) : Prop :=
  ∀ r, alLookup p st.titles = some r → r.BaseExist = false

/-- The record at prefix `p` holds `fi` as its installed Base. -/
def baseIs (st : ClassifyState) (p : String) (fi : SwitchFileInfo) : Prop :=
  ∃ r, alLookup p st.titles = some r ∧ r.BaseExist = true ∧ r.File = fi

theorem isBaseEvB_iff (p : String) (e : Event) :
    isBaseEvB p e = true ↔
      idPfx e.md.TitleId = p ∧ goHasSuffix e.md.TitleId "000" = true := by
  unfold isBaseEvB
  simp [Bool.and_eq_true, decide_eq_true_eq]

theorem lookedUp_cases (st : ClassifyState) (multi split : Bool)
    (md : ContentMetaAttributes) :
    (alLookup (idPfx md.TitleId) st.titles = none ∧
      lookedUp st multi split md = freshTitle multi split) ∨
    (∃ r1, alLookup (idPfx md.TitleId) st.titles = some r1 ∧
      lookedUp st multi split md = r1) := by
  unfold lookedUp
  cases hl : alLookup (idPfx md.TitleId) st.titles with
  | none => exact Or.inl ⟨rfl, rfl⟩
  | some r1 => exact Or.inr ⟨r1, rfl, rfl⟩

theorem noBase_lookedUp (st : ClassifyState) (multi split : Bool)
    (md : ContentMetaAttributes) (p : String)
    (hnb : noBaseAt st p) (hp : idPfx md.TitleId = p) :
    (lookedUp st multi split md).BaseExist = false := by
  rcases lookedUp_cases st multi split md with ⟨hl, heq⟩ | ⟨r1, hl, heq⟩
  · rw [heq]
    rfl
  · rw [heq]
    exact hnb r1 (hp ▸ hl)

theorem step_updSlots (U : FileMeta → Prop) (ev : Event) (st : ClassifyState)
    (h : updSlotsIn U st)
    (hU : goHasSuffix ev.md.TitleId "800" = true → U ev.file) :
    updSlotsIn U (processContent ev.file ev.multi ev.split ev.md st) := by
  -- updates of the record the step read trace back to a stored record
  have hlu : ∀ v i, alLookup v (lookedUp st ev.multi ev.split ev.md).Updates = some i →
      U i.ExtendedInfo := by
    intro v i hvi
    rcases lookedUp_cases st ev.multi ev.split ev.md with ⟨hl, heq⟩ | ⟨r1, hl, heq⟩
    · rw [heq] at hvi
      exact absurd hvi (by simp [freshTitle, alLookup])
    · rw [heq] at hvi
      exact h _ r1 v i hl hvi
  have hstep : ∀ (r' : SwitchGameFiles) (S : List (FileMeta × SkippedFile)),
      (∀ v i, alLookup v r'.Updates = some i → U i.ExtendedInfo) →
      updSlotsIn U ⟨alInsert (idPfx ev.md.TitleId) r' st.titles, S⟩ := by
    intro r' S hr' q r v i hq hvi
    by_cases hqp : idPfx ev.md.TitleId = q
    · rw [hqp, alLookup_alInsert_self] at hq
      cases Option.some.inj hq
      exact hr' v i hvi
    · rw [alLookup_alInsert_ne _ _ _ _ hqp] at hq
      exact h q r v i hq hvi
  have hnew : ∀ v i,
      alLookup v (alInsert ev.md.Version ⟨ev.file, updMd ev.md⟩
        (lookedUp st ev.multi ev.split ev.md).Updates) = some i →
      goHasSuffix ev.md.TitleId "800" = true → U i.ExtendedInfo := by
    intro v i hvi h8
    rw [alLookup_alInsert] at hvi
    by_cases hv : ev.md.Version = v
    · rw [if_pos hv] at hvi
      cases Option.some.inj hvi
      exact hU h8
    · rw [if_neg hv] at hvi
      exact hlu v i hvi
  rcases processContent_cases ev.file ev.multi ev.split ev.md st
      (lookedUp st ev.multi ev.split ev.md) rfl with
    ⟨h8, hcase⟩ | ⟨h8, h0, hcase⟩ | ⟨h8, h0, hcase⟩
  · rcases hcase with ⟨u, hu, hout⟩ | ⟨hu, hgt, hout⟩ | ⟨hu, hgt, hout⟩ <;> rw [hout]
    · exact hstep _ _ hlu
    · exact hstep _ _ (fun v i hvi => hnew v i hvi h8)
    · exact hstep _ _ (fun v i hvi => hnew v i hvi h8)
  · rcases hcase with ⟨hbe, hout⟩ | ⟨hbe, hout⟩ <;> rw [hout] <;> exact hstep _ _ hlu
  · rcases hcase with ⟨dlc, hd, hv, hout⟩ | ⟨dlc, hd, hv, hout⟩ | ⟨dlc, hd, hv, hout⟩ |
      ⟨hd, hout⟩ <;> rw [hout] <;> exact hstep _ _ hlu

theorem step_latestSlot (ev : Event) (st : ClassifyState)
    (h : latestSlotOk st) :
    latestSlotOk (processContent ev.file ev.multi ev.split ev.md st) := by
  have hlu : (lookedUp st ev.multi ev.split ev.md).LatestUpdate ≠ 0 →
      ∃ i, alLookup (lookedUp st ev.multi ev.split ev.md).LatestUpdate
        (lookedUp st ev.multi ev.split ev.md).Updates = some i := by
    intro hnz
    rcases lookedUp_cases st ev.multi ev.split ev.md with ⟨hl, heq⟩ | ⟨r1, hl, heq⟩
    · rw [heq] at hnz
      exact absurd rfl hnz
    · rw [heq] at hnz ⊢
      exact h _ r1 hl hnz
  have hstep : ∀ (r' : SwitchGameFiles) (S : List (FileMeta × SkippedFile)),
      (r'.LatestUpdate ≠ 0 → ∃ i, alLookup r'.LatestUpdate r'.Updates = some i) →
      latestSlotOk ⟨alInsert (idPfx ev.md.TitleId) r' st.titles, S⟩ := by
    intro r' S hr' q r hq hnz
    by_cases hqp : idPfx ev.md.TitleId = q
    · rw [hqp, alLookup_alInsert_self] at hq
      cases Option.some.inj hq
      exact hr' hnz
    · rw [alLookup_alInsert_ne _ _ _ _ hqp] at hq
      exact h q r hq hnz
  rcases processContent_cases ev.file ev.multi ev.split ev.md st
      (lookedUp st ev.multi ev.split ev.md) rfl with
    ⟨h8, hcase⟩ | ⟨h8, h0, hcase⟩ | ⟨h8, h0, hcase⟩
  · rcases hcase with ⟨u, hu, hout⟩ | ⟨hu, hgt, hout⟩ | ⟨hu, hgt, hout⟩ <;> rw [hout]
    · exact hstep _ _ hlu
    · refine hstep _ _ (fun _ => ?_)
      exact ⟨⟨ev.file, updMd ev.md⟩, by
        show alLookup ev.md.Version (alInsert ev.md.Version _ _) = _
        exact alLookup_alInsert_self _ _ _⟩
    · refine hstep _ _ (fun hnz => ?_)
      obtain ⟨i, hi⟩ := hlu hnz
      obtain ⟨i', hi'⟩ := alLookup_alInsert_isSome
        (lookedUp st ev.multi ev.split ev.md).LatestUpdate ev.md.Version
        ⟨ev.file, updMd ev.md⟩ (lookedUp st ev.multi ev.split ev.md).Updates i hi
      exact ⟨i', hi'⟩
  · rcases hcase with ⟨hbe, hout⟩ | ⟨hbe, hout⟩ <;> rw [hout] <;> exact hstep _ _ hlu
  · rcases hcase with ⟨dlc, hd, hv, hout⟩ | ⟨dlc, hd, hv, hout⟩ | ⟨dlc, hd, hv, hout⟩ |
      ⟨hd, hout⟩ <;> rw [hout] <;> exact hstep _ _ hlu

theorem step_noBase (p : String) (ev : Event) (st : ClassifyState)
    (h : noBaseAt st p) (hnb : ¬ isBaseEvB p ev = true) :
    noBaseAt (processContent ev.file ev.multi ev.split ev.md st) p := by
  have hlu : (lookedUp st ev.multi ev.split ev.md).BaseExist = false ∨
      ¬ idPfx ev.md.TitleId = p := by
    by_cases hp : idPfx ev.md.TitleId = p
    · exact Or.inl (noBase_lookedUp st ev.multi ev.split ev.md p h hp)
    · exact Or.inr hp
  have hstep : ∀ (r' : SwitchGameFiles) (S : List (FileMeta × SkippedFile)),
      r'.BaseExist = false ∨ ¬ idPfx ev.md.TitleId = p →
      noBaseAt ⟨alInsert (idPfx ev.md.TitleId) r' st.titles, S⟩ p := by
    intro r' S hr' r hq
    by_cases hqp : idPfx ev.md.TitleId = p
    · rw [hqp, alLookup_alInsert_self] at hq
      cases Option.some.inj hq
      rcases hr' with hr' | hr'
      · exact hr'
      · exact absurd hqp hr'
    · rw [alLookup_alInsert_ne _ _ _ _ hqp] at hq
      exact h r hq
  rcases processContent_cases ev.file ev.multi ev.split ev.md st
      (lookedUp st ev.multi ev.split ev.md) rfl with
    ⟨h8, hcase⟩ | ⟨h8, h0, hcase⟩ | ⟨h8, h0, hcase⟩
  · rcases hcase with ⟨u, hu, hout⟩ | ⟨hu, hgt, hout⟩ | ⟨hu, hgt, hout⟩ <;> rw [hout] <;>
      exact hstep _ _ (hlu.imp (fun he => he) (fun hp => hp))
  · rcases hcase with ⟨hbe, hout⟩ | ⟨hbe, hout⟩ <;> rw [hout]
    · exact hstep _ _ (hlu.imp (fun he => he) (fun hp => hp))
    · -- a Base install: the event must not have been a base event for p
      refine hstep _ _ (Or.inr ?_)
      intro hp
      exact hnb ((isBaseEvB_iff p ev).mpr ⟨hp, h0⟩)
  · rcases hcase with ⟨dlc, hd, hv, hout⟩ | ⟨dlc, hd, hv, hout⟩ | ⟨dlc, hd, hv, hout⟩ |
      ⟨hd, hout⟩ <;> rw [hout] <;>
      exact hstep _ _ (hlu.imp (fun he => he) (fun hp => hp))

theorem step_baseIs (p : String) (fi : SwitchFileInfo) (ev : Event) (st : ClassifyState)
    (h : baseIs st p fi) :
    baseIs (processContent ev.file ev.multi ev.split ev.md st) p fi := by
  obtain ⟨r, hrl, hbe, hfile⟩ := h
  rcases processContent_cases ev.file ev.multi ev.split ev.md st
      (lookedUp st ev.multi ev.split ev.md) rfl with
    ⟨h8, hcase⟩ | ⟨h8, h0, hcase⟩ | ⟨h8, h0, hcase⟩
  all_goals by_cases hpq : idPfx ev.md.TitleId = p
  case neg =>
    rcases hcase with ⟨u, hu, hout⟩ | ⟨hu, hgt, hout⟩ | ⟨hu, hgt, hout⟩ <;> rw [hout] <;>
      exact ⟨r, by rw [alLookup_alInsert_ne _ _ _ _ hpq]; exact hrl, hbe, hfile⟩
  case neg =>
    rcases hcase with ⟨hbe', hout⟩ | ⟨hbe', hout⟩ <;> rw [hout] <;>
      exact ⟨r, by rw [alLookup_alInsert_ne _ _ _ _ hpq]; exact hrl, hbe, hfile⟩
  case neg =>
    rcases hcase with ⟨dlc, hd, hv, hout⟩ | ⟨dlc, hd, hv, hout⟩ | ⟨dlc, hd, hv, hout⟩ |
      ⟨hd, hout⟩ <;> rw [hout] <;>
      exact ⟨r, by rw [alLookup_alInsert_ne _ _ _ _ hpq]; exact hrl, hbe, hfile⟩
  case pos =>
    have hre : lookedUp st ev.multi ev.split ev.md = r :=
      lookedUp_of_lookup st ev.multi ev.split ev.md r (by rw [hpq]; exact hrl)
    rw [hre] at hcase
    rcases hcase with ⟨u, hu, hout⟩ | ⟨hu, hgt, hout⟩ | ⟨hu, hgt, hout⟩ <;> rw [hout]
    · exact ⟨r, by rw [hpq, alLookup_alInsert_self], hbe, hfile⟩
    · exact ⟨updAccept r ev.file ev.md, by rw [hpq, alLookup_alInsert_self], hbe, hfile⟩
    · exact ⟨updStore r ev.file ev.md, by rw [hpq, alLookup_alInsert_self], hbe, hfile⟩
  case pos =>
    have hre : lookedUp st ev.multi ev.split ev.md = r :=
      lookedUp_of_lookup st ev.multi ev.split ev.md r (by rw [hpq]; exact hrl)
    rw [hre] at hcase
    rcases hcase with ⟨hbe', hout⟩ | ⟨hbe', hout⟩
    · rw [hout]
      exact ⟨r, by rw [hpq, alLookup_alInsert_self], hbe, hfile⟩
    · rw [hbe] at hbe'
      exact absurd hbe' (by simp)
  case pos =>
    have hre : lookedUp st ev.multi ev.split ev.md = r :=
      lookedUp_of_lookup st ev.multi ev.split ev.md r (by rw [hpq]; exact hrl)
    rw [hre] at hcase
    rcases hcase with ⟨dlc, hd, hv, hout⟩ | ⟨dlc, hd, hv, hout⟩ | ⟨dlc, hd, hv, hout⟩ |
      ⟨hd, hout⟩ <;> rw [hout]
    · exact ⟨r, by rw [hpq, alLookup_alInsert_self], hbe, hfile⟩
    · exact ⟨r, by rw [hpq, alLookup_alInsert_self], hbe, hfile⟩
    · exact ⟨dlcStore r ev.file ev.md, by rw [hpq, alLookup_alInsert_self], hbe, hfile⟩
    · exact ⟨dlcStore r ev.file ev.md, by rw [hpq, alLookup_alInsert_self], hbe, hfile⟩

/-- A skip entry for a file that is neither the step's own file nor any
update-slot file survives the step unchanged. -/
theorem step_skipped_other (U : FileMeta → Prop) (ev : Event) (st : ClassifyState)
    (f : FileMeta) (hne : ¬ ev.file = f)
    (hsl : latestSlotOk st) (hus : updSlotsIn U st) (hUf : ¬ U f) :
    alLookup f (processContent ev.file ev.multi ev.split ev.md st).skipped =
      alLookup f st.skipped := by
  rcases processContent_cases ev.file ev.multi ev.split ev.md st
      (lookedUp st ev.multi ev.split ev.md) rfl with
    ⟨h8, hcase⟩ | ⟨h8, h0, hcase⟩ | ⟨h8, h0, hcase⟩
  · rcases hcase with ⟨u, hu, hout⟩ | ⟨hu, hgt, hout⟩ | ⟨hu, hgt, hout⟩ <;> rw [hout]
    · exact alLookup_alInsert_ne _ _ _ _ hne
    · by_cases hz : (lookedUp st ev.multi ev.split ev.md).LatestUpdate ≠ 0
      · rw [if_pos hz]
        rcases lookedUp_cases st ev.multi ev.split ev.md with ⟨hl, heq⟩ | ⟨r1, hl, heq⟩
        · rw [heq] at hz
          exact absurd rfl hz
        · obtain ⟨i, hi⟩ := hsl _ r1 hl (by rw [← heq]; exact hz)
          have hUi : U i.ExtendedInfo := hus _ r1 _ i hl hi
          have hfne : ¬ prevLatestFile (lookedUp st ev.multi ev.split ev.md) = f := by
            unfold prevLatestFile
            rw [heq, hi]
            intro hEq
            exact hUf (hEq ▸ hUi)
          exact alLookup_alInsert_ne _ _ _ _ hfne
      · rw [if_neg hz]
    · exact alLookup_alInsert_ne _ _ _ _ hne
  · rcases hcase with ⟨hbe, hout⟩ | ⟨hbe, hout⟩ <;> rw [hout]
    exact alLookup_alInsert_ne _ _ _ _ hne
  · rcases hcase with ⟨dlc, hd, hv, hout⟩ | ⟨dlc, hd, hv, hout⟩ | ⟨dlc, hd, hv, hout⟩ |
      ⟨hd, hout⟩ <;> rw [hout]
    · exact alLookup_alInsert_ne _ _ _ _ hne
    · exact alLookup_alInsert_ne _ _ _ _ hne

/-- After the Base slot for `p` is installed with `fi`, it stays `fi`, and
every later base event for `p` whose file only ever occurs in base-`p`
events is skipped as a duplicate referencing `fi`. -/
theorem base_phase2 (U : FileMeta → Prop) :
    ∀ (evs : List Event) (st : ClassifyState) (p : String) (fi : SwitchFileInfo),
      baseIs st p fi →
      updSlotsIn U st → latestSlotOk st →
      (∀ e ∈ evs, goHasSuffix e.md.TitleId "800" = true → U e.file) →
      baseIs (runEvents evs st) p fi ∧
      (∀ f, ¬ U f → (∀ e' ∈ evs, e'.file = f → isBaseEvB p e' = true) →
        ((∃ e, e ∈ evs ∧ isBaseEvB p e = true ∧ e.file = f) ∨
          alLookup f st.skipped = some (dupBaseSkip fi.ExtendedInfo.name)) →
        alLookup f (runEvents evs st).skipped = some (dupBaseSkip fi.ExtendedInfo.name)) := by
  intro evs
  induction evs with
  | nil =>
    intro st p fi hb _ _ _
    refine ⟨hb, ?_⟩
    intro f _ _ hseed
    rcases hseed with ⟨e, he, _⟩ | hskip
    · exact absurd he (List.not_mem_nil e)
    · exact hskip
  | cons a evs ih =>
    intro st p fi hb hus hsl hU8
    have hb1 := step_baseIs p fi a st hb
    have hus1 := step_updSlots U a st hus (hU8 a (List.mem_cons_self a evs))
    have hsl1 := step_latestSlot a st hsl
    have hU8' : ∀ e ∈ evs, goHasSuffix e.md.TitleId "800" = true → U e.file :=
      fun e he => hU8 e (List.mem_cons_of_mem a he)
    obtain ⟨hbfin, hskips⟩ :=
      ih (processContent a.file a.multi a.split a.md st) p fi hb1 hus1 hsl1 hU8'
    refine ⟨hbfin, ?_⟩
    intro f hUf hall hseed
    apply hskips f hUf (fun e' he' => hall e' (List.mem_cons_of_mem a he'))
    by_cases haf : a.file = f
    · right
      have hba : isBaseEvB p a = true := hall a (List.mem_cons_self a evs) haf
      obtain ⟨hpfx, h000⟩ := (isBaseEvB_iff p a).mp hba
      have h8f := suffix000_not_suffix800 _ h000
      obtain ⟨r, hrl, hbe, hfile⟩ := hb
      have hre : lookedUp st a.multi a.split a.md = r :=
        lookedUp_of_lookup st a.multi a.split a.md r (by rw [hpfx]; exact hrl)
      rw [pc_base_dup a.file a.multi a.split a.md st r hre h8f h000 hbe]
      show alLookup f (alInsert a.file (dupBaseSkip r.File.ExtendedInfo.name) st.skipped) = _
      rw [haf, alLookup_alInsert_self, hfile]
    · rcases hseed with ⟨e, he, hbe', hef⟩ | hskip
      · rcases List.mem_cons.mp he with rfl | hmem
        · exact absurd hef haf
        · exact Or.inl ⟨e, hmem, hbe', hef⟩
      · right
        rw [step_skipped_other U a st f haf hsl hus hUf]
        exact hskip

/-- Before any base event for `p` has run, the first base-`p` event of the
stream installs its file as the Base, after which `base_phase2` applies. -/
theorem base_phase1 (U : FileMeta → Prop) :
    ∀ (evs : List Event) (st : ClassifyState) (p : String) (e1 : Event) (rest : List Event),
      evs.filter (isBaseEvB p) = e1 :: rest →
      noBaseAt st p →
      updSlotsIn U st → latestSlotOk st →
      (∀ e ∈ evs, goHasSuffix e.md.TitleId "800" = true → U e.file) →
      baseIs (runEvents evs st) p ⟨e1.file, baseMd e1.md⟩ ∧
      (∀ f, ¬ U f → (∀ e' ∈ evs, e'.file = f → isBaseEvB p e' = true) →
        (∃ e, e ∈ rest ∧ e.file = f) →
        alLookup f (runEvents evs st).skipped = some (dupBaseSkip e1.file.name)) := by
  intro evs
  induction evs with
  | nil =>
    intro st p e1 rest hfil
    simp at hfil
  | cons a evs ih =>
    intro st p e1 rest hfil hnb hus hsl hU8
    cases hcl : isBaseEvB p a with
    | true =>
      rw [List.filter_cons, if_pos hcl] at hfil
      obtain ⟨rfl, hrest⟩ := List.cons.injEq .. ▸ hfil
      obtain ⟨hpfx, h000⟩ := (isBaseEvB_iff p a).mp hcl
      have h8f := suffix000_not_suffix800 _ h000
      have hbe0 : (lookedUp st a.multi a.split a.md).BaseExist = false :=
        noBase_lookedUp st a.multi a.split a.md p hnb hpfx
      have hstep := pc_base_install a.file a.multi a.split a.md st
        (lookedUp st a.multi a.split a.md) rfl h8f h000 hbe0
      have hb1 : baseIs (processContent a.file a.multi a.split a.md st) p
          ⟨a.file, baseMd a.md⟩ := by
        rw [hstep]
        exact ⟨baseStore (lookedUp st a.multi a.split a.md) a.file a.md,
          by rw [← hpfx]; exact alLookup_alInsert_self _ _ _, rfl, rfl⟩
      have hus1 := step_updSlots U a st hus (hU8 a (List.mem_cons_self a evs))
      have hsl1 := step_latestSlot a st hsl
      have hU8' : ∀ e ∈ evs, goHasSuffix e.md.TitleId "800" = true → U e.file :=
        fun e he => hU8 e (List.mem_cons_of_mem a he)
      obtain ⟨hbfin, hskips⟩ := base_phase2 U evs
        (processContent a.file a.multi a.split a.md st) p ⟨a.file, baseMd a.md⟩
        hb1 hus1 hsl1 hU8'
      refine ⟨hbfin, ?_⟩
      intro f hUf hall ⟨e, he, hef⟩
      have he' : e ∈ evs.filter (isBaseEvB p) := hrest ▸ he
      obtain ⟨hmem, hbe'⟩ := List.mem_filter.mp he'
      exact hskips f hUf (fun e' he'' => hall e' (List.mem_cons_of_mem a he''))
        (Or.inl ⟨e, hmem, hbe', hef⟩)
    | false =>
      rw [List.filter_cons, if_neg (by rw [hcl]; simp)] at hfil
      have hnb1 := step_noBase p a st hnb (by rw [hcl]; simp)
      have hus1 := step_updSlots U a st hus (hU8 a (List.mem_cons_self a evs))
      have hsl1 := step_latestSlot a st hsl
      have hU8' : ∀ e ∈ evs, goHasSuffix e.md.TitleId "800" = true → U e.file :=
        fun e he => hU8 e (List.mem_cons_of_mem a he)
      obtain ⟨hbfin, hskips⟩ := ih (processContent a.file a.multi a.split a.md st) p e1 rest
        hfil hnb1 hus1 hsl1 hU8'
      exact ⟨hbfin, fun f hUf hall hex =>
        hskips f hUf (fun e' he' => hall e' (List.mem_cons_of_mem a he')) hex⟩

/-- C5: for every event stream, if the base-suffix events for prefix `p`
are `e1 :: rest` in input order, and every file of a later base event
occurs in the stream only as a base-`p` event, then after the run from the
empty state, `e1`'s file is installed as the record's Base (with type tag
"Base") and every later base file is skipped as `Duplicate` with the
message referencing `e1`'s file name — regardless of any version numbers,
which the base branch never reads. -/
theorem c5_base_resolution :
    ∀ (evs : List Event) (p : String) (e1 : Event) (rest : List Event),
      evs.filter (isBaseEvB p) = e1 :: rest →
      (∀ e ∈ rest, ∀ e' ∈ evs, e'.file = e.file → isBaseEvB p e' = true) →
      (∃ r, alLookup p (runEvents evs ⟨[], []⟩).titles = some r ∧ r.BaseExist = true ∧
        r.File = ⟨e1.file, baseMd e1.md⟩) ∧
      (∀ e ∈ rest, alLookup e.file (runEvents evs ⟨[], []⟩).skipped =
        some (dupBaseSkip e1.file.name)) := by
  intro evs p e1 rest hfil honly
  have hUdef : ∀ e ∈ evs, goHasSuffix e.md.TitleId "800" = true →
      (∃ e' , e' ∈ evs ∧ e'.file = e.file ∧ goHasSuffix e'.md.TitleId "800" = true) :=
    fun e he h8 => ⟨e, he, rfl, h8⟩
  obtain ⟨hbfin, hskips⟩ := base_phase1
    (fun f => ∃ e', e' ∈ evs ∧ e'.file = f ∧ goHasSuffix e'.md.TitleId "800" = true)
    evs ⟨[], []⟩ p e1 rest hfil
    (fun r hr => absurd hr (by simp [alLookup]))
    (fun q r v i hq => absurd hq (by simp [alLookup]))
    (fun q r hq => absurd hq (by simp [alLookup]))
    hUdef
  refine ⟨hbfin, ?_⟩
  intro e he
  refine hskips e.file ?_ (honly e he) ⟨e, he, rfl⟩
  rintro ⟨e', he', hef, h8'⟩
  have hb' : isBaseEvB p e' = true := honly e he e' he' hef
  obtain ⟨_, h000'⟩ := (isBaseEvB_iff p e').mp hb'
  rw [suffix000_not_suffix800 _ h000'] at h8'
  exact absurd h8' (by simp)

/-- Concrete base events used by the C5 witness. -/
def baseEvA : Event := ⟨⟨"baseA.nsp", "/r", 20, false⟩, false, false, ⟨"0100000000000000", 0, ""⟩⟩

def baseEvB : Event := ⟨⟨"baseB.nsp", "/r", 21, false⟩, false, false, ⟨"0100000000000000", 0, ""⟩⟩

/-- Witness for C5: two base files for the same prefix; the earlier is
installed, the later is skipped as a duplicate referencing it. -/
theorem c5_base_resolution_witness :
    (∃ r, alLookup "010000000000" (runEvents [baseEvA, baseEvB] ⟨[], []⟩).titles = some r ∧
      r.BaseExist = true ∧ r.File = ⟨baseEvA.file, baseMd baseEvA.md⟩) ∧
    (∀ e ∈ [baseEvB], alLookup e.file (runEvents [baseEvA, baseEvB] ⟨[], []⟩).skipped =
      some (dupBaseSkip baseEvA.file.name)) :=
  c5_base_resolution [baseEvA, baseEvB] "010000000000" baseEvA [baseEvB]
    (by decide) (by decide)

/-! ## Claim C7 — fallback name parsing

Spec-level token predicates (existential decompositions of the character
list), and the equivalence of the source's scanning matchers with them. -/

/-- The string contains a bracketed token of exactly `n` characters of
class `p`. -/
def HasBracketTok (p : Char → Bool) (n : Nat) (cs : List Char) : Prop :=
  ∃ pre tok post, cs = pre ++ '[' :: (tok ++ ']' :: post) ∧ tok.length = n ∧
    tok.all p = true

/-- The string contains a bracketed version token `[v<digits>]`,
`[V<digits>]` or `[<digits>]` with 1-10 digits. -/
def HasVersionTok (cs : List Char) : Prop :=
  ∃ pre opt d post, cs = pre ++ '[' :: (opt ++ (d ++ ']' :: post)) ∧
    (opt = [] ∨ opt = ['v'] ∨ opt = ['V']) ∧
    1 ≤ d.length ∧ d.length ≤ 10 ∧ d.all isDigitCh = true

/-- Modelled from the spec: the claim's "alphanumeric" character class —
what `titleIdRegex` would accept had it no comma in its class. -/
def isAlnumCh (c : Char) : Bool :=
  decide (('A' ≤ c ∧ c ≤ 'Z') ∨ ('a' ≤ c ∧ c ≤ 'z') ∨ ('0' ≤ c ∧ c ≤ '9'))

theorem all_takeWhile (q : Char → Bool) (l : List Char) :
    (l.takeWhile q).all q = true := by
  induction l with
  | nil => rfl
  | cons a as ih =>
    by_cases h : q a
    · simp [List.takeWhile, h, ih]
    · simp [List.takeWhile, h]

theorem takeWhile_all_append (q : Char → Bool) (d : List Char) (x : Char) (post : List Char)
    (hall : d.all q = true) (hx : q x = false) :
    (d ++ x :: post).takeWhile q = d := by
  induction d with
  | nil => simp [List.takeWhile, hx]
  | cons a as ih => simp_all [List.takeWhile]

theorem digit_not_vV (c : Char) (h : isDigitCh c = true) : ¬ (c = 'v' ∨ c = 'V') := by
  rintro (rfl | rfl) <;> exact absurd h (by decide)

/-- When the element right after the maximal `q`-run is `c`, the list
splits as run, `c`, remainder. -/
theorem takeWhile_getElem_decomp (q : Char → Bool) :
    ∀ (l : List Char) (c : Char), l[(l.takeWhile q).length]? = some c →
      l = l.takeWhile q ++ c :: (l.drop ((l.takeWhile q).length + 1)) := by
  intro l
  induction l with
  | nil =>
    intro c h
    exact absurd h (by simp)
  | cons a as ih =>
    intro c h
    by_cases hq : q a = true
    · rw [List.takeWhile_cons_of_pos hq] at h ⊢
      simp only [List.length_cons, List.getElem?_cons_succ] at h
      have hrec := ih c h
      simp only [List.length_cons, List.drop_succ_cons, List.cons_append]
      rw [← hrec]
    · have hq' : q a = false := by
        revert hq
        cases q a <;> simp
      rw [List.takeWhile_cons_of_neg (by rw [hq']; simp)] at h ⊢
      simp only [List.length_nil, List.getElem?_cons_zero] at h
      have hac : a = c := Option.some.inj h
      simp only [List.length_nil, List.nil_append, List.drop_succ_cons, List.drop_zero]
      rw [hac]

theorem tokHere_isSome_iff (p : Char → Bool) (n : Nat) (cs : List Char) :
    (tokHere p n cs).isSome = true ↔
      ∃ tok post, cs = '[' :: (tok ++ ']' :: post) ∧ tok.length = n ∧
        tok.all p = true := by
  cases cs with
  | nil =>
    constructor
    · intro h
      exact absurd h (by simp [tokHere])
    · rintro ⟨tok, post, hcs, _⟩
      exact absurd hcs (by simp)
  | cons c rest =>
    constructor
    · intro h
      by_cases hcond : (c = '[' ∧ (rest.take n).length = n ∧ (rest.take n).all p = true ∧
          rest[n]? = some ']')
      · obtain ⟨hc, hlen, hall, hnth⟩ := hcond
        subst hc
        obtain ⟨hlt, hv⟩ := List.getElem?_eq_some.mp hnth
        have hdrop : rest.drop n = ']' :: rest.drop (n + 1) := by
          rw [List.drop_eq_getElem_cons hlt, hv]
        have hrec : rest.take n ++ ']' :: rest.drop (n + 1) = rest := by
          rw [← hdrop]
          exact List.take_append_drop n rest
        exact ⟨rest.take n, rest.drop (n + 1), by rw [hrec], hlen, hall⟩
      · rw [tokHere, if_neg hcond] at h
        exact absurd h (by simp)
    · rintro ⟨tok, post, hcs, hlen, hall⟩
      injection hcs with hc hrest
      subst hc
      subst hrest
      have htake : (tok ++ ']' :: post).take n = tok := by
        rw [← hlen]
        exact List.take_left tok (']' :: post)
      have hnth : (tok ++ ']' :: post)[n]? = some ']' := by
        rw [← hlen, List.getElem?_append_right (le_refl _)]
        simp
      rw [tokHere, if_pos ⟨rfl, by rw [htake, hlen], by rw [htake]; exact hall, hnth⟩]
      rfl

theorem findTok_isSome_iff (p : Char → Bool) (n : Nat) :
    ∀ cs, (findTok p n cs).isSome = true ↔ HasBracketTok p n cs := by
  intro cs
  induction cs with
  | nil =>
    constructor
    · intro h
      exact absurd h (by simp [findTok])
    · rintro ⟨pre, tok, post, hcs, _⟩
      exact absurd hcs (by simp)
  | cons c rest ih =>
    constructor
    · intro h
      rw [findTok] at h
      cases hth : tokHere p n (c :: rest) with
      | some t =>
        obtain ⟨tok, post, hcs, hlen, hall⟩ :=
          (tokHere_isSome_iff p n (c :: rest)).mp (by rw [hth]; rfl)
        exact ⟨[], tok, post, hcs, hlen, hall⟩
      | none =>
        rw [hth] at h
        obtain ⟨pre, tok, post, hcs, hlen, hall⟩ := ih.mp h
        exact ⟨c :: pre, tok, post, by rw [hcs]; rfl, hlen, hall⟩
    · rintro ⟨pre, tok, post, hcs, hlen, hall⟩
      rw [findTok]
      cases hth : tokHere p n (c :: rest) with
      | some t => rfl
      | none =>
        apply ih.mpr
        cases pre with
        | nil =>
          have hs : (tokHere p n (c :: rest)).isSome = true :=
            (tokHere_isSome_iff p n (c :: rest)).mpr ⟨tok, post, hcs, hlen, hall⟩
          rw [hth] at hs
          exact absurd hs (by simp)
        | cons dd pre' =>
          injection hcs with hcd hrest
          exact ⟨pre', tok, post, hrest, hlen, hall⟩

theorem verBody_cases (rest : List Char) :
    (∃ r2, rest = 'v' :: r2 ∧ verBody rest = r2) ∨
    (∃ r2, rest = 'V' :: r2 ∧ verBody rest = r2) ∨
    verBody rest = rest := by
  cases rest with
  | nil => exact Or.inr (Or.inr rfl)
  | cons c r2 =>
    by_cases hv : c = 'v' ∨ c = 'V'
    · rcases hv with rfl | rfl
      · exact Or.inl ⟨r2, rfl, by simp [verBody]⟩
      · exact Or.inr (Or.inl ⟨r2, rfl, by simp [verBody]⟩)
    · exact Or.inr (Or.inr (by simp [verBody, hv]))

theorem verHere_isSome_iff (cs : List Char) :
    (verHere cs).isSome = true ↔
      ∃ opt d post, cs = '[' :: (opt ++ (d ++ ']' :: post)) ∧
        (opt = [] ∨ opt = ['v'] ∨ opt = ['V']) ∧
        1 ≤ d.length ∧ d.length ≤ 10 ∧ d.all isDigitCh = true := by
  cases cs with
  | nil =>
    constructor
    · intro h
      exact absurd h (by simp [verHere])
    · rintro ⟨opt, d, post, hcs, _⟩
      exact absurd hcs (by simp)
  | cons c rest =>
    constructor
    · intro h
      by_cases hcond : (c = '[' ∧ 1 ≤ ((verBody rest).takeWhile isDigitCh).length ∧
          ((verBody rest).takeWhile isDigitCh).length ≤ 10 ∧
          (verBody rest)[((verBody rest).takeWhile isDigitCh).length]? = some ']')
      · obtain ⟨hc, h1, h10, hnth⟩ := hcond
        subst hc
        obtain ⟨d, hd⟩ : ∃ d, (verBody rest).takeWhile isDigitCh = d := ⟨_, rfl⟩
        rw [hd] at h1 h10 hnth
        have hbody := takeWhile_getElem_decomp isDigitCh (verBody rest) ']'
          (by rw [hd]; exact hnth)
        rw [hd] at hbody
        obtain ⟨dwt, hdwt⟩ : ∃ dwt, (verBody rest).drop (d.length + 1) = dwt := ⟨_, rfl⟩
        rw [hdwt] at hbody
        have hall : d.all isDigitCh = true := by
          rw [← hd]
          exact all_takeWhile isDigitCh (verBody rest)
        rcases verBody_cases rest with ⟨r2, hr, hb⟩ | ⟨r2, hr, hb⟩ | hb
        · have hr2 : r2 = d ++ ']' :: dwt := hb.symm.trans hbody
          refine ⟨['v'], d, dwt, ?_, Or.inr (Or.inl rfl), h1, h10, hall⟩
          rw [hr, hr2]
          rfl
        · have hr2 : r2 = d ++ ']' :: dwt := hb.symm.trans hbody
          refine ⟨['V'], d, dwt, ?_, Or.inr (Or.inr rfl), h1, h10, hall⟩
          rw [hr, hr2]
          rfl
        · have hrr : rest = d ++ ']' :: dwt := hb.symm.trans hbody
          refine ⟨[], d, dwt, ?_, Or.inl rfl, h1, h10, hall⟩
          rw [hrr]
          rfl
      · rw [verHere, if_neg hcond] at h
        exact absurd h (by simp)
    · rintro ⟨opt, d, post, hcs, hopt, h1, h10, hall⟩
      injection hcs with hc hrest
      subst hc
      have hbody : verBody rest = d ++ ']' :: post := by
        rcases hopt with rfl | rfl | rfl
        · rw [hrest]
          cases hd : d with
          | nil =>
            rw [hd] at h1
            exact absurd h1 (by simp)
          | cons c3 d' =>
            have hc3 : isDigitCh c3 = true := by
              rw [hd] at hall
              exact (List.all_cons .. ▸ hall |> Bool.and_elim_left)
            have hnv := digit_not_vV c3 hc3
            simp [verBody, hnv]
        · rw [hrest]
          simp [verBody]
        · rw [hrest]
          simp [verBody]
      have htw : (verBody rest).takeWhile isDigitCh = d := by
        rw [hbody]
        exact takeWhile_all_append isDigitCh d ']' post hall (by decide)
      have hnth : (verBody rest)[((verBody rest).takeWhile isDigitCh).length]? = some ']' := by
        rw [htw, hbody, List.getElem?_append_right (le_refl _)]
        simp
      rw [verHere, if_pos ⟨rfl, by rw [htw]; exact h1, by rw [htw]; exact h10, hnth⟩]
      rfl

theorem findVer_isSome_iff : ∀ cs, (findVer cs).isSome = true ↔ HasVersionTok cs := by
  intro cs
  induction cs with
  | nil =>
    constructor
    · intro h
      exact absurd h (by simp [findVer])
    · rintro ⟨pre, opt, d, post, hcs, _⟩
      exact absurd hcs (by simp)
  | cons c rest ih =>
    constructor
    · intro h
      rw [findVer] at h
      cases hth : verHere (c :: rest) with
      | some t =>
        obtain ⟨opt, d, post, hcs, hopt, h1, h10, hall⟩ :=
          (verHere_isSome_iff (c :: rest)).mp (by rw [hth]; rfl)
        exact ⟨[], opt, d, post, hcs, hopt, h1, h10, hall⟩
      | none =>
        rw [hth] at h
        obtain ⟨pre, opt, d, post, hcs, hopt, h1, h10, hall⟩ := ih.mp h
        exact ⟨c :: pre, opt, d, post, by rw [hcs]; rfl, hopt, h1, h10, hall⟩
    · rintro ⟨pre, opt, d, post, hcs, hopt, h1, h10, hall⟩
      rw [findVer]
      cases hth : verHere (c :: rest) with
      | some t => rfl
      | none =>
        apply ih.mpr
        cases pre with
        | nil =>
          have hs : (verHere (c :: rest)).isSome = true :=
            (verHere_isSome_iff (c :: rest)).mpr ⟨opt, d, post, hcs, hopt, h1, h10, hall⟩
          rw [hth] at hs
          exact absurd hs (by simp)
        | cons dd pre' =>
          injection hcs with hcd hrest
          exact ⟨pre', opt, d, post, hrest, hopt, h1, h10, hall⟩

/-- C7 counterexample: the title-id character class `[A-Z,a-z0-9]`
contains a literal comma, so the filename
"Some Game [0100ABCD,F123456][v65536].nsp" resolves successfully with
title id "0100abcd,f123456" even though it contains no bracketed
16-character alphanumeric token — refuting the claim's "succeeds if and
only if" with the alphanumeric class. -/
theorem c7_counterexample :
    fallbackResolve "Some Game [0100ABCD,F123456][v65536].nsp" =
      .ok [⟨"0100abcd,f123456", 65536, ""⟩] ∧
    parseTitleIdFromFileName "Some Game [0100ABCD,F123456][v65536].nsp" =
      some "0100abcd,f123456" ∧
    ¬ HasBracketTok isAlnumCh 16 ("Some Game [0100ABCD,F123456][v65536].nsp".data) := by
  refine ⟨rfl, rfl, ?_⟩
  intro h
  exact absurd ((findTok_isSome_iff isAlnumCh 16 _).mpr h) (by decide)

/-- C7 (amended): fallback resolution succeeds if and only if the filename
contains both a bracketed version token (`[v<digits>]`, `[V<digits>]` or
`[<digits>]`, 1-10 digits) and a bracketed 16-character token over the
class alphanumeric-or-comma (the compiled class `[A-Z,a-z0-9]` contains a
literal comma); the returned title id is the leftmost matched token
lowercased; if either token is missing, resolution fails with the
unresolved-metadata error; "Some Game [0100ABCDEF123456][v65536].nsp"
yields title id 0100abcdef123456 and version 65536. -/
theorem c7_fallback_parsing :
    (∀ s, (parseTitleIdFromFileName s).isSome = true ↔
       HasBracketTok isTitleIdChar 16 s.data) ∧
    (∀ s, (parseVersionFromFileName s).isSome = true ↔ HasVersionTok s.data) ∧
    (∀ name, (∃ m, fallbackResolve name = .ok m) ↔
       (HasBracketTok isTitleIdChar 16 name.data ∧ HasVersionTok name.data)) ∧
    (∀ name, (¬ HasBracketTok isTitleIdChar 16 name.data ∨ ¬ HasVersionTok name.data) →
       fallbackResolve name = .error "unable to determine titileId / version") ∧
    (parseTitleIdFromFileName "Some Game [0100ABCDEF123456][v65536].nsp" =
       some "0100abcdef123456" ∧
     parseVersionFromFileName "Some Game [0100ABCDEF123456][v65536].nsp" = some 65536 ∧
     fallbackResolve "Some Game [0100ABCDEF123456][v65536].nsp" =
       .ok [⟨"0100abcdef123456", 65536, ""⟩]) := by
  have hT : ∀ s, (parseTitleIdFromFileName s).isSome = true ↔
      HasBracketTok isTitleIdChar 16 s.data := by
    intro s
    unfold parseTitleIdFromFileName
    rw [Option.isSome_map']
    exact findTok_isSome_iff isTitleIdChar 16 s.data
  have hV : ∀ s, (parseVersionFromFileName s).isSome = true ↔ HasVersionTok s.data := by
    intro s
    unfold parseVersionFromFileName
    rw [Option.isSome_map']
    exact findVer_isSome_iff s.data
  have hOk : ∀ name, (∃ m, fallbackResolve name = .ok m) ↔
      ((parseTitleIdFromFileName name).isSome = true ∧
        (parseVersionFromFileName name).isSome = true) := by
    intro name
    unfold fallbackResolve
    constructor
    · rintro ⟨m, hm⟩
      cases ht : parseTitleIdFromFileName name with
      | none =>
        rw [ht] at hm
        cases hv : parseVersionFromFileName name <;> rw [hv] at hm <;>
          exact absurd hm (by simp)
      | some t =>
        cases hv : parseVersionFromFileName name with
        | none =>
          rw [ht, hv] at hm
          exact absurd hm (by simp)
        | some v => simp [ht, hv]
    · rintro ⟨ht, hv⟩
      obtain ⟨t, ht'⟩ := Option.isSome_iff_exists.mp ht
      obtain ⟨v, hv'⟩ := Option.isSome_iff_exists.mp hv
      rw [ht', hv']
      exact ⟨_, rfl⟩
  refine ⟨hT, hV, ?_, ?_, rfl, rfl, rfl⟩
  · intro name
    rw [hOk name, hT name, hV name]
  · intro name hmiss
    cases ht : parseTitleIdFromFileName name with
    | none =>
      unfold fallbackResolve
      rw [ht]
    | some t =>
      cases hv : parseVersionFromFileName name with
      | none =>
        unfold fallbackResolve
        rw [ht, hv]
      | some v =>
        rcases hmiss with hm | hm
        · exact absurd ((hT name).mp (by rw [ht]; rfl)) hm
        · exact absurd ((hV name).mp (by rw [hv]; rfl)) hm

/-- Witness for C7: the equivalence applied at a concrete filename whose
matcher succeeds, producing the spec-level token decomposition. -/
theorem c7_fallback_parsing_witness :
    HasBracketTok isTitleIdChar 16 ("q [0100000000000abc][v2].nsp".data) :=
  (c7_fallback_parsing.1 "q [0100000000000abc][v2].nsp").mp (by decide)

end SLM
